import Mathlib

/-!
# Sygma core: decimal adjustment, gas pricing, nonce handling and the deposit listener

A shallow embedding of the parts of the relayer core that its specification
talks about, followed by theorems about them.

* `relayer/messageprocessors/message_processors.go`: the three decimal-adjustment
  message processors;
* `chains/evm/evmclient/evm-client.go`: `EstimateGasLondon`, `SafeEstimateGas`,
  `multiplyGasPrice`, `unsafeNonce`, `UnsafeIncreaseNonce`, `UnsafeOpts`;
* `chains/evm/listener/listener.go`: one iteration of `ListenToEvents`.

Go values are embedded as follows: `uint8` is `Fin 256` (its subtraction wraps
like the machine one), `*big.Int` is `Int` or `Nat` (a nil pointer is `none`),
a byte slice is a list of bytes, `[]interface{}` is a list of dynamically typed
values, and a call that mutates its receiver and returns an error is a function
to the new state together with the error, or to a run-time abort.
-/

namespace Sygma

/-! ## Go run-time model -/

/-- The Go type `uint8` (also `byte`). -/
abbrev Uint8 := Fin 256

/-- Outcome of running Go code on a state `σ`: it returns with the state it
leaves behind and a value, or it aborts with a run-time error (a Go `panic` that
nothing recovers). -/
inductive Exec (σ α : Type) where
  | ret (s : σ) (v : α)
  | abort (msg : String)
  deriving DecidableEq, Repr

deriving instance DecidableEq for Except

/-- The Go type `error`: `none` is the nil error. -/
abbrev GoError := Option String

/-! ## `math/big` integers as byte strings -/

/-- `new(big.Int).SetBytes(buf)`: reads `buf` as a big-endian unsigned integer. -/
def SetBytes (buf : List Uint8) : Nat :=
  buf.foldl (fun acc b => acc * 256 + b.val) 0

/-- Big-endian digits of `n` in base 256, most significant first, without leading
zeros; `fuel` bounds the number of digits produced. -/
def bytesBE : Nat → Nat → List Uint8
  | 0, _ => []
  | fuel + 1, n =>
    if n = 0 then [] else bytesBE fuel (n / 256) ++ [⟨n % 256, Nat.mod_lt n (by decide)⟩]

/-- `x.Bytes()` for a non-negative `x`: the big-endian byte slice of `x`, of
minimal length (empty for zero). -/
def Bytes (n : Nat) : List Uint8 :=
  bytesBE n n

/-! ## Messages -/

/-- `types.ResourceID`, the Go array type `[32]byte`. -/
abbrev ResourceID := { l : List Uint8 // l.length = 32 }

/-- `message.TransferType`. The declaration is not part of the sources at hand;
the three kinds are those the specification lists. -/
inductive TransferType where
  | FungibleTransfer
  | NonFungibleTransfer
  | GenericTransfer
  deriving DecidableEq, Repr

/-- An element of a `[]interface{}` payload: a byte slice, or a value of any other
dynamic type (told apart by a code). -/
inductive Value where
  | bytes (b : List Uint8)
  | other (code : Nat)
  deriving DecidableEq, Repr

/-- `message.Message`. The struct is declared outside the sources at hand; the
fields are those the processors, the listener and the specification name. -/
structure Message where
  Source : Uint8
  Destination : Uint8
  DepositNonce : Nat
  ResourceId : ResourceID
  Payload : List Value
  Type_ : TransferType
  DepositBlock : Nat
  DepositTxHash : List Uint8
  deriving DecidableEq

/-! ## Message processors -/

/-- Result of a read-only contract call made through a chain client: a value, an
error, or a run-time abort inside the call (for instance on a nil client). -/
inductive Call (α : Type) where
  | ok (v : α)
  | error (e : String)
  | abort (msg : String)

/-- `common.Address`. -/
abbrev Address := Nat

/-- One of the untyped `args ...interface{}` handed to a processor constructor.
A Go map is a partial function on its key type (a nil map is the empty one). -/
inductive Arg where
  /-- `map[uint8]uint8` -/
  | decimalsMap (m : Uint8 → Option Uint8)
  /-- `map[uint8]map[types.ResourceID]uint8` -/
  | decimalsTokenMap (m : Uint8 → Option (ResourceID → Option Uint8))
  /-- `map[uint8]calls.ContractCallerDispatcher`, each client named by a handle -/
  | clients (m : Uint8 → Option Nat)
  /-- `map[uint8]transactor.Transactor`, each transactor named by a handle -/
  | transactors (m : Uint8 → Option Nat)
  /-- `map[uint8]*chain.EVMConfig`, each configuration given by its `Bridge` address -/
  | evmConfigs (m : Uint8 → Option Address)
  /-- a value of any other dynamic type -/
  | other (code : Nat)

/-- A `MessageProcessor` applied to a message: the message as the call leaves it
and the returned error, or a run-time abort. -/
abbrev ProcessorRun := Exec Message GoError

/-- `AdjustDecimalsForERC20AmountMessageProcessor(args...)(m)`. -/
def AdjustDecimalsForERC20AmountMessageProcessor (args : List Arg) (m : Message) :
    ProcessorRun :=
  match args with
  | [] => .ret m (some "processor requires 1 argument")
  | .decimalsMap decimalsMap :: _ =>
    match decimalsMap m.Source with
    | none => .ret m (some "no source decimals found at decimalsMap")
    | some sourceDecimal =>
      match decimalsMap m.Destination with
      | none => .ret m (some "no destination decimals found at decimalsMap")
      | some destDecimal =>
        match m.Payload[0]? with
        | none => .abort "index out of range [0] with length 0"
        | some (Value.bytes amountByte) =>
          let amount := SetBytes amountByte
          if sourceDecimal > destDecimal then
            let diff := sourceDecimal - destDecimal
            let roundedAmount := amount / 10 ^ diff.val
            .ret { m with Payload := m.Payload.set 0 (.bytes (Bytes roundedAmount)) } none
          else if sourceDecimal < destDecimal then
            let diff := destDecimal - sourceDecimal
            let roundedAmount := amount * 10 ^ diff.val
            .ret { m with Payload := m.Payload.set 0 (.bytes (Bytes roundedAmount)) } none
          else .ret m none
        | some _ => .ret m (some "could not cast interface to byte slice")
  | _ :: _ => .ret m (some "no decimals map found in args")

/-- `AdjustDecimalsForIndividualERC20AmountMessageProcessor(args...)(m)`. -/
def AdjustDecimalsForIndividualERC20AmountMessageProcessor (args : List Arg) (m : Message) :
    ProcessorRun :=
  match args with
  | [] => .ret m (some "processor requires 1 argument")
  | .decimalsTokenMap decimalsTokenMap :: _ =>
    match decimalsTokenMap m.Source with
    | none => .ret m (some "no source chain decimals found at decimalsMap")
    | some sourceDecimals =>
      match sourceDecimals m.ResourceId with
      | none => .ret m (some "no source token decimals found at decimalsMap")
      | some sourceDecimal =>
        match decimalsTokenMap m.Destination with
        | none => .ret m (some "no destination chain decimals found at decimalsMap")
        | some destDecimals =>
          match destDecimals m.ResourceId with
          | none => .ret m (some "no destination token decimals found at decimalsMap")
          | some destDecimal =>
            match m.Payload[0]? with
            | none => .abort "index out of range [0] with length 0"
            | some (Value.bytes amountByte) =>
              let amount := SetBytes amountByte
              if sourceDecimal > destDecimal then
                let diff := sourceDecimal - destDecimal
                let roundedAmount := amount / 10 ^ diff.val
                .ret { m with Payload := m.Payload.set 0 (.bytes (Bytes roundedAmount)) } none
              else if sourceDecimal < destDecimal then
                let diff := destDecimal - sourceDecimal
                let roundedAmount := amount * 10 ^ diff.val
                .ret { m with Payload := m.Payload.set 0 (.bytes (Bytes roundedAmount)) } none
              else .ret m none
            | some _ => .ret m (some "could not cast interface to byte slice")
  | _ :: _ => .ret m (some "no decimals map found in args")

/-- The contract reads the automatic processor makes, as functions of what it
passes: the client of the chain (nil when the map has none), the contract address
and the resource. The contract bindings are not part of the sources at hand. -/
structure ContractReads where
  /-- `bridge.NewBridgeContract(client, bridgeAddress, t).GetHandlerAddressForResourceID(rid)` -/
  GetHandlerAddressForResourceID : Option Nat → Address → ResourceID → Call Address
  /-- `erc20.NewERC20HandlerContract(client, handler, t).ResourceIdToTokenContractAddress(rid)` -/
  ResourceIdToTokenContractAddress : Option Nat → Address → ResourceID → Call Address
  /-- `erc20.NewERC20Contract(client, token, t).GetDecimals()`, dereferenced -/
  GetDecimals : Option Nat → Address → Call Uint8

/-- `AdjustDecimalsForERC20AmountMessageAutoProcessor(args...)(m)`, over the
contract reads `env`. -/
def AdjustDecimalsForERC20AmountMessageAutoProcessor (env : ContractReads) (args : List Arg)
    (m : Message) : ProcessorRun :=
  if m.Type_ ≠ TransferType.FungibleTransfer then .ret m none
  else
    match args with
    | [a0, a1, a2] =>
      match a0 with
      | .clients clients =>
        match a1 with
        | .transactors _ =>
          match a2 with
          | .evmConfigs evmConfigs =>
            let sourceClient := clients m.Source
            let destClient := clients m.Destination
            match evmConfigs m.Source with
            | none => .abort "invalid memory address or nil pointer dereference"
            | some sourceBridge =>
              match evmConfigs m.Destination with
              | none => .abort "invalid memory address or nil pointer dereference"
              | some destBridge =>
                match env.GetHandlerAddressForResourceID sourceClient sourceBridge m.ResourceId with
                | .abort msg => .abort msg
                | .error e => .ret m (some e)
                | .ok sourceHandlerAddress =>
                match env.GetHandlerAddressForResourceID destClient destBridge m.ResourceId with
                | .abort msg => .abort msg
                | .error e => .ret m (some e)
                | .ok destHandlerAddress =>
                match env.ResourceIdToTokenContractAddress sourceClient sourceHandlerAddress
                    m.ResourceId with
                | .abort msg => .abort msg
                | .error e => .ret m (some e)
                | .ok sourceTokenAddress =>
                match env.ResourceIdToTokenContractAddress destClient destHandlerAddress
                    m.ResourceId with
                | .abort msg => .abort msg
                | .error e => .ret m (some e)
                | .ok destTokenAddress =>
                match env.GetDecimals sourceClient sourceTokenAddress with
                | .abort msg => .abort msg
                | .error e => .ret m (some e)
                | .ok sourceDecimal =>
                match env.GetDecimals destClient destTokenAddress with
                | .abort msg => .abort msg
                | .error e => .ret m (some e)
                | .ok destDecimal =>
                match m.Payload[0]? with
                | none => .abort "index out of range [0] with length 0"
                | some (Value.bytes amountByte) =>
                  let amount := SetBytes amountByte
                  if sourceDecimal > destDecimal then
                    let diff := sourceDecimal - destDecimal
                    let roundedAmount := amount / 10 ^ diff.val
                    .ret { m with Payload := m.Payload.set 0 (.bytes (Bytes roundedAmount)) } none
                  else if sourceDecimal < destDecimal then
                    let diff := destDecimal - sourceDecimal
                    let roundedAmount := amount * 10 ^ diff.val
                    .ret { m with Payload := m.Payload.set 0 (.bytes (Bytes roundedAmount)) } none
                  else .ret m none
                | some _ => .ret m (some "could not cast interface to byte slice")
          | _ => .ret m (some "no evmConfig found in args")
        | _ => .ret m (some "no transactor found in args")
      | _ => .ret m (some "no client found in args")
    | _ => .ret m (some "processor requires 3 arguments")

/-! ## Test fixtures of `message_processors_test.go` -/

/-- `types.ResourceID{1}`. -/
def resourceOne : ResourceID := ⟨1 :: List.replicate 31 0, by decide⟩

/-- The message of the tests: source, destination, resource, kind and payload as
given, every other field zero. -/
def testMessage (src dst : Uint8) (kind : TransferType) (payload : List Value) : Message :=
  { Source := src, Destination := dst, DepositNonce := 0, ResourceId := resourceOne,
    Payload := payload, Type_ := kind, DepositBlock := 0, DepositTxHash := [] }

/-- The message the first test sends: 145.5567 tokens of 18 decimals from chain 1
to chain 2. -/
def sentMessage : Message :=
  testMessage 1 2 .FungibleTransfer [.bytes (Bytes 145556700000000000000)]

/-- The message the first test expects: 14555, that is 145.55 tokens of 2 decimals. -/
def adjustedMessage : Message :=
  testMessage 1 2 .FungibleTransfer [.bytes (Bytes 14555)]

/-- `map[uint8]uint8{1: 18, 2: 2}`. -/
def testDecimals : Uint8 → Option Uint8 :=
  fun k => if k = 1 then some 18 else if k = 2 then some 2 else none

/-- `map[uint8]map[types.ResourceID]uint8{1: {{1}: 18}, 2: {{1}: 2}}`. -/
def testTokenDecimals : Uint8 → Option (ResourceID → Option Uint8) :=
  fun k =>
    if k = 1 then some (fun r => if r = resourceOne then some 18 else none)
    else if k = 2 then some (fun r => if r = resourceOne then some 2 else none)
    else none

/-! ## `math/big` floats -/

/-- Number of binary digits of `n`; `fuel` bounds the number of digits counted. -/
def bitLenAux : Nat → Nat → Nat
  | 0, _ => 0
  | fuel + 1, n => if n = 0 then 0 else bitLenAux fuel (n / 2) + 1

/-- `x.BitLen()` of the absolute value `n`: the number of bits of `n`, 0 for 0. -/
def BitLen (n : Nat) : Nat :=
  bitLenAux n n

/-- A finite `*big.Float` value: sign, mantissa and binary exponent, standing for
`± mant * 2 ^ exp` (the mantissa need not be normalised). Infinities are left out. -/
structure BigFloat where
  neg : Bool
  mant : Nat
  exp : Int
  deriving DecidableEq, Repr

/-- Rounding of `mant * 2 ^ exp` to `prec` mantissa bits in the mode
`ToNearestEven` (the mode of a fresh `big.Float`): the rounded mantissa and its
exponent. -/
def roundToNearestEven (prec mant : Nat) (exp : Int) : Nat × Int :=
  let shift := BitLen mant - prec
  if shift = 0 then (mant, exp)
  else
    let q := mant / 2 ^ shift
    let r := mant % 2 ^ shift
    let half := 2 ^ (shift - 1)
    if half < r ∨ (r = half ∧ q % 2 = 1) then (q + 1, exp + shift) else (q, exp + shift)

/-- `x.Int(z)` on the absolute value `mant * 2 ^ exp`: truncation towards zero. -/
def truncToInt (mant : Nat) (exp : Int) : Nat :=
  if 0 ≤ exp then mant * 2 ^ exp.toNat else mant / 2 ^ (-exp).toNat

/-- The rational number a `BigFloat` stands for. -/
def BigFloat.toRat (x : BigFloat) : ℚ :=
  (if x.neg then -1 else 1) * (x.mant : ℚ) * (2 : ℚ) ^ x.exp

/-! ## EVM client: gas pricing -/

/-- `config.SharedEVMConfig`, the fields the gas policy reads. -/
structure SharedEVMConfig where
  MaxGasPrice : Int
  GasMultiplier : BigFloat

/-- `multiplyGasPrice(gasEstimate, gasMultiplier)`: `SetInt` gives the float the
precision `max(BitLen, 64)`, `Mul` rounds the product to that precision, `Int`
truncates it. -/
def multiplyGasPrice (gasEstimate : Int) (gasMultiplier : BigFloat) : Int :=
  let prec := max (BitLen gasEstimate.natAbs) 64
  let result := roundToNearestEven prec (gasEstimate.natAbs * gasMultiplier.mant) gasMultiplier.exp
  let gasPrice := truncToInt result.1 result.2
  if (decide (gasEstimate < 0)) != gasMultiplier.neg then -(gasPrice : Int) else (gasPrice : Int)

/-- `(*EVMClient).EstimateGasLondon(ctx, baseFee)` over the configuration it reads
and the answer of `SuggestGasTipCap`, which is asked for only past the first
branch; the result is `(maxPriorityFeePerGas, maxFeePerGas)`. -/
def EstimateGasLondon (sharedEVMConfig : SharedEVMConfig) (SuggestGasTipCap : Except String Int)
    (baseFee : Int) : Except String (Int × Int) :=
  if sharedEVMConfig.MaxGasPrice < baseFee then
    let maxPriorityFeePerGas : Int := 1
    let maxFeePerGas := baseFee + maxPriorityFeePerGas
    .ok (maxPriorityFeePerGas, maxFeePerGas)
  else
    match SuggestGasTipCap with
    | .error err => .error err
    | .ok maxPriorityFeePerGas =>
      let maxFeePerGas := maxPriorityFeePerGas + baseFee * 2
      if maxFeePerGas < maxPriorityFeePerGas then
        .error "maxFeePerGas < maxPriorityFeePerGas"
      else if maxFeePerGas > sharedEVMConfig.MaxGasPrice then
        .ok (sharedEVMConfig.MaxGasPrice - baseFee, sharedEVMConfig.MaxGasPrice)
      else .ok (maxPriorityFeePerGas, maxFeePerGas)

/-- `(*EVMClient).SafeEstimateGas(ctx)` over the configuration it reads and the
answer of `SuggestGasPrice`. -/
def SafeEstimateGas (sharedEVMConfig : SharedEVMConfig) (SuggestGasPrice : Except String Int) :
    Except String Int :=
  match SuggestGasPrice with
  | .error err => .error err
  | .ok suggestedGasPrice =>
    let gasPrice := multiplyGasPrice suggestedGasPrice sharedEVMConfig.GasMultiplier
    if gasPrice > sharedEVMConfig.MaxGasPrice then .ok sharedEVMConfig.MaxGasPrice
    else .ok gasPrice

/-- `(*EVMClient).GasPrice()`. -/
def GasPrice (sharedEVMConfig : SharedEVMConfig) (SuggestGasPrice : Except String Int) :
    Except String Int :=
  match SafeEstimateGas sharedEVMConfig SuggestGasPrice with
  | .error err => .error err
  | .ok gasPrice => .ok gasPrice

/-! ## EVM client: nonce and transaction options -/

/-- The transaction options `c.opts`, as `SetNonce` and `SetGasPrices` fill them
(a nil `*big.Int` is `none`). -/
structure TransactOpts where
  Nonce : Option Nat
  GasPrice : Option Int
  GasTipCap : Option Int
  GasFeeCap : Option Int
  deriving DecidableEq, Repr

/-- The part of `EVMClient` that the nonce and option methods read and write.
`nonceQueries` counts the `PendingNonceAt` calls made so far and `optsLocked` is
the state of `optsLock`. -/
structure EVMClient where
  config : SharedEVMConfig
  nonce : Option Nat
  opts : TransactOpts
  optsLocked : Bool
  nonceQueries : Nat

/-- The answers of the node to `PendingNonceAt`, by the number of earlier calls. -/
abbrev NonceOracle := Nat → Except String Nat

/-- The `for i := 0; i <= 10; i++` loop of `unsafeNonce` with `iters` iterations
left. Falling out of the loop returns the nil nonce with the outer `err`, which
nothing ever assigns. -/
def unsafeNonceLoop (PendingNonceAt : NonceOracle) :
    Nat → EVMClient → EVMClient × Option Nat × GoError
  | 0, c => (c, none, none)
  | iters + 1, c =>
    match c.nonce with
    | none =>
      match PendingNonceAt c.nonceQueries with
      | .error _ =>
        unsafeNonceLoop PendingNonceAt iters { c with nonceQueries := c.nonceQueries + 1 }
      | .ok nonce =>
        ({ c with nonce := some nonce, nonceQueries := c.nonceQueries + 1 }, some nonce, none)
    | some nonce => (c, some nonce, none)

/-- `(*EVMClient).unsafeNonce()`: the client afterwards, the returned nonce and
the returned error. -/
def unsafeNonce (PendingNonceAt : NonceOracle) (c : EVMClient) :
    EVMClient × Option Nat × GoError :=
  unsafeNonceLoop PendingNonceAt 11 c

/-- `(*EVMClient).UnsafeIncreaseNonce()`. With a nil nonce and a nil error,
`nonce.Add` dereferences nil. -/
def UnsafeIncreaseNonce (PendingNonceAt : NonceOracle) (c : EVMClient) :
    Exec EVMClient GoError :=
  match unsafeNonce PendingNonceAt c with
  | (c1, _, some err) => .ret c1 (some err)
  | (_, none, none) => .abort "invalid memory address or nil pointer dereference"
  | (c1, some nonce, none) => .ret { c1 with nonce := some (nonce + 1) } none

/-- `(*EVMClient).UnlockOpts()`. -/
def UnlockOpts (c : EVMClient) : EVMClient :=
  { c with optsLocked := false }

/-- `(*EVMClient).UnsafeOpts()` over the answers of the node: `head` is the result of
`HeaderByNumber` (the `BaseFee` of the header, nil before London), `tip` that of
`SuggestGasTipCap` and `price` that of `SuggestGasPrice`. -/
def UnsafeOpts (PendingNonceAt : NonceOracle) (head : Except String (Option Int))
    (tip price : Except String Int) (c : EVMClient) : EVMClient × Except String TransactOpts :=
  match unsafeNonce PendingNonceAt c with
  | (c1, _, some err) => (c1, .error err)
  | (c1, nonce, none) =>
    let c2 := { c1 with opts := { c1.opts with Nonce := nonce } }
    match head with
    | .error err => (UnlockOpts c2, .error err)
    | .ok (some baseFee) =>
      match EstimateGasLondon c2.config tip baseFee with
      | .error err => (c2, .error err)
      | .ok (gasTipCap, gasFeeCap) =>
        let c3 := { c2 with opts := { c2.opts with
          GasPrice := none, GasTipCap := some gasTipCap, GasFeeCap := some gasFeeCap } }
        (c3, .ok c3.opts)
    | .ok none =>
      match GasPrice c2.config price with
      | .error err => (UnlockOpts c2, .error err)
      | .ok gasPrice =>
        let c3 := { c2 with opts := { c2.opts with
          GasPrice := some gasPrice, GasTipCap := none, GasFeeCap := none } }
        (c3, .ok c3.opts)

/-- A call on the client by its owner, with the answers the node gives during it. -/
inductive ClientCall where
  | unsafeNonce
  | UnsafeIncreaseNonce
  | UnsafeOpts (head : Except String (Option Int)) (tip price : Except String Int)

/-- The client after one call; `none` when the call aborts. -/
def ClientCall.run (PendingNonceAt : NonceOracle) (c : EVMClient) : ClientCall → Option EVMClient
  | .unsafeNonce => some (Sygma.unsafeNonce PendingNonceAt c).1
  | .UnsafeIncreaseNonce =>
    match Sygma.UnsafeIncreaseNonce PendingNonceAt c with
    | .ret c1 _ => some c1
    | .abort _ => none
  | .UnsafeOpts head tip price => some (Sygma.UnsafeOpts PendingNonceAt head tip price c).1

/-- The client after a sequence of calls, `none` when one of them aborts. -/
def runCalls (PendingNonceAt : NonceOracle) : EVMClient → List ClientCall → Option EVMClient
  | c, [] => some c
  | c, call :: calls =>
    match call.run PendingNonceAt c with
    | none => none
    | some c1 => runCalls PendingNonceAt c1 calls

/-- Number of `UnsafeIncreaseNonce` calls in a sequence. -/
def increases : List ClientCall → Nat
  | [] => 0
  | .UnsafeIncreaseNonce :: calls => increases calls + 1
  | _ :: calls => increases calls

/-! ## Deposit listener -/

/-- `evmclient.DepositLogsEnriched`, the fields the listener hands to the event
handler. -/
structure DepositLogs where
  DestinationDomainID : Uint8
  ResourceID : ResourceID
  DepositNonce : Nat
  SenderAddress : Address
  Data : List Uint8
  HandlerResponse : List Uint8
  DepositTxHash : List Uint8
  DepositBlock : Nat
  deriving DecidableEq

/-- What an iteration of the listener loop does to the outside, in order. -/
inductive ListenerEvent where
  /-- `time.Sleep(blockRetryInterval)` -/
  | sleep
  /-- `FetchDepositLogs(ctx, bridgeAddress, startBlock, endBlock)` -/
  | fetch (startBlock endBlock : Int)
  /-- `ch <- m` -/
  | emit (m : Message)
  /-- `blockstore.StoreBlock(endBlock, domainID)` -/
  | store (endBlock : Int) (domainID : Uint8)
  deriving DecidableEq

/-- The answers the listener gets during one iteration of its loop. -/
structure ListenerEnv where
  LatestBlock : Except String Int
  FetchDepositLogs : Int → Int → Except String (List DepositLogs)
  HandleEvent : Uint8 → DepositLogs → Except String Message
  StoreBlock : Int → Uint8 → GoError

/-- The `for _, eventLog := range logs` loop: the messages sent on the channel. -/
def handleLogs (env : ListenerEnv) (domainID : Uint8) : List DepositLogs → List ListenerEvent
  | [] => []
  | eventLog :: logs =>
    match env.HandleEvent domainID eventLog with
    | .error _ => handleLogs env domainID logs
    | .ok m => .emit m :: handleLogs env domainID logs

/-- One iteration of the loop of `ListenToEvents` (the `default` case of the
`select`): the cursor `startBlock` afterwards (nil is `none`) and what the
iteration did. -/
def ListenToEventsIteration (blockDelay : Int) (domainID : Uint8) (env : ListenerEnv)
    (startBlock : Option Int) : Option Int × List ListenerEvent :=
  match env.LatestBlock with
  | .error _ => (startBlock, [.sleep])
  | .ok head =>
    let startBlock := startBlock.getD head
    if head - startBlock < blockDelay then (some startBlock, [.sleep])
    else
      let endBlock := head - blockDelay
      let endBlock := if endBlock - startBlock > 99 then startBlock + 99 else endBlock
      match env.FetchDepositLogs startBlock endBlock with
      | .error _ => (some startBlock, [.fetch startBlock endBlock])
      | .ok logs =>
        (some (endBlock + 1),
          .fetch startBlock endBlock :: handleLogs env domainID logs
            ++ [.store endBlock domainID])

/-- The loop of `ListenToEvents` over the answers of successive iterations, until
the stop signal: the final cursor and everything done, in order. -/
def ListenToEvents (blockDelay : Int) (domainID : Uint8) :
    List ListenerEnv → Option Int → Option Int × List ListenerEvent
  | [], startBlock => (startBlock, [])
  | env :: envs, startBlock =>
    let step := ListenToEventsIteration blockDelay domainID env startBlock
    let rest := ListenToEvents blockDelay domainID envs step.1
    (rest.1, step.2 ++ rest.2)

/-- An environment for a single iteration: the head is `head`, no log is found
and the block store accepts the write. -/
def quietEnv (head : Int) : ListenerEnv :=
  { LatestBlock := .ok head
    FetchDepositLogs := fun _ _ => .ok []
    HandleEvent := fun _ _ => .error "no handler"
    StoreBlock := fun _ _ => none }

/-! ## Round trips through the decimal adjustment -/

/-- The amount a message carries: `Payload[0]` read as a big-endian integer, when
it is a byte slice. -/
def amountOf (m : Message) : Option Nat :=
  match m.Payload[0]? with
  | some (Value.bytes b) => some (SetBytes b)
  | _ => none

/-- The message that carries what `m` carries the other way: source and
destination swapped. -/
def returning (m : Message) : Message :=
  { m with Source := m.Destination, Destination := m.Source }

/-- The amount that comes back when `m` goes through the processor and the
resulting amount then goes through it in the opposite direction, with the same
decimals map; `none` when one of the two runs does not succeed. -/
def roundTrip (decimalsMap : Uint8 → Option Uint8) (m : Message) : Option Nat :=
  match AdjustDecimalsForERC20AmountMessageProcessor [.decimalsMap decimalsMap] m with
  | .ret m1 none =>
    match AdjustDecimalsForERC20AmountMessageProcessor [.decimalsMap decimalsMap]
        (returning m1) with
    | .ret m2 none => amountOf m2
    | _ => none
  | _ => none

/-- What a run of a processor that returns may have done to the message: nothing
(and then a success means `Payload[0]` is a byte slice), or it succeeded and
replaced the byte slice at `Payload[0]` by another byte slice. -/
def Touched (m m' : Message) (e : GoError) : Prop :=
  (m' = m ∧ (e = none → ∃ b, m.Payload[0]? = some (Value.bytes b))) ∨
  (e = none ∧ ∃ b b', m.Payload[0]? = some (Value.bytes b) ∧
    m' = { m with Payload := m.Payload.set 0 (Value.bytes b') })

/-! ## Gas scenarios of the specification -/

/-- A configuration with `MaxGasPrice = maxGasPrice` and the multiplier 1. -/
def gasConfig (maxGasPrice : Int) : SharedEVMConfig :=
  { MaxGasPrice := maxGasPrice, GasMultiplier := { neg := false, mant := 1, exp := 0 } }

/-- A configuration with `MaxGasPrice = maxGasPrice` and the multiplier `3 / 2`. -/
def legacyConfig (maxGasPrice : Int) : SharedEVMConfig :=
  { MaxGasPrice := maxGasPrice, GasMultiplier := { neg := false, mant := 3, exp := -1 } }

/-- A configuration with the maximum `10 ^ 12` and the multiplier `1 + 2 ^ (-33)`,
which is `8589934593 * 2 ^ (-33)` and a `float64`. -/
def roundingConfig : SharedEVMConfig :=
  { MaxGasPrice := 1000000000000,
    GasMultiplier := { neg := false, mant := 8589934593, exp := -33 } }

/-! ## A nonce scenario -/

/-- A node whose first answer to `PendingNonceAt` is an error and whose later
answers are the nonce 7. -/
def flakyNode : NonceOracle :=
  fun i => if i = 0 then .error "connection refused" else .ok 7

/-- A client that has not asked for its nonce yet. -/
def freshClient : EVMClient :=
  { config := gasConfig 150
    nonce := none
    opts := { Nonce := none, GasPrice := none, GasTipCap := none, GasFeeCap := none }
    optsLocked := true
    nonceQueries := 0 }

/-! ## Reading a listener trace -/

/-- The batches a trace completes: for every `StoreBlock` call, the range of the
fetch that precedes it. `pending` is the range of the last fetch seen so far. -/
def batchesFrom : Option (Int × Int) → List ListenerEvent → List (Int × Int)
  | _, [] => []
  | _, .fetch a b :: rest => batchesFrom (some (a, b)) rest
  | some r, .store _ _ :: rest => r :: batchesFrom none rest
  | none, .store _ _ :: rest => batchesFrom none rest
  | pending, .sleep :: rest => batchesFrom pending rest
  | pending, .emit _ :: rest => batchesFrom pending rest

/-- The ranges of the fetches of a trace that were followed by a checkpoint. -/
def batches (trace : List ListenerEvent) : List (Int × Int) :=
  batchesFrom none trace

/-- The blocks handed to `StoreBlock` in a trace, in order. -/
def stored : List ListenerEvent → List Int
  | [] => []
  | .store b _ :: rest => b :: stored rest
  | .sleep :: rest => stored rest
  | .fetch _ _ :: rest => stored rest
  | .emit _ :: rest => stored rest

/-- The messages sent on the channel in a trace, in order. -/
def emitted : List ListenerEvent → List Message
  | [] => []
  | .emit m :: rest => m :: emitted rest
  | .sleep :: rest => emitted rest
  | .fetch _ _ :: rest => emitted rest
  | .store _ _ :: rest => emitted rest

/-- Ranges that follow one another from block `s` on, without gap or overlap, each
of them non-empty. -/
def ContiguousFrom : Int → List (Int × Int) → Prop
  | _, [] => True
  | s, (a, b) :: rest => a = s ∧ a ≤ b ∧ ContiguousFrom (b + 1) rest

/-- The results of `HandleEvent` on the logs of a batch, for the logs on which it
returned no error, in the order of the logs. -/
def resolved (env : ListenerEnv) (domainID : Uint8) (logs : List DepositLogs) : List Message :=
  logs.filterMap fun eventLog =>
    match env.HandleEvent domainID eventLog with
    | .ok m => some m
    | .error _ => none

/-! ## A listener scenario with a log that cannot be handled -/

/-- A deposit log with the given nonce, found in the given block. -/
def depositAt (nonce block : Nat) : DepositLogs :=
  { DestinationDomainID := 2, ResourceID := resourceOne, DepositNonce := nonce,
    SenderAddress := 0, Data := Bytes 14555, HandlerResponse := [], DepositTxHash := [],
    DepositBlock := block }

/-- The message an event handler makes of a fungible deposit log. -/
def messageOf (domainID : Uint8) (eventLog : DepositLogs) : Message :=
  { Source := domainID, Destination := eventLog.DestinationDomainID,
    DepositNonce := eventLog.DepositNonce, ResourceId := eventLog.ResourceID,
    Payload := [.bytes eventLog.Data], Type_ := .FungibleTransfer,
    DepositBlock := eventLog.DepositBlock, DepositTxHash := eventLog.DepositTxHash }

/-- An iteration in which the head is 1000, the fetch returns the deposits 1 (in
block 550) and 2 (in block 560), and the handler fails on deposit 1. -/
def partialEnv : ListenerEnv :=
  { LatestBlock := .ok 1000
    FetchDepositLogs := fun _ _ => .ok [depositAt 1 550, depositAt 2 560]
    HandleEvent := fun domainID eventLog =>
      if eventLog.DepositNonce = 1 then .error "no handler for this resource"
      else .ok (messageOf domainID eventLog)
    StoreBlock := fun _ _ => none }

/-! ## Chain configuration (`config/chain/evm.go`) -/

/-- The Go conversion to `int64`: the value modulo `2 ^ 64`, read as signed. -/
def toInt64 (x : Int) : Int :=
  (x + 2 ^ 63) % 2 ^ 64 - 2 ^ 63

/-- Modelled from the spec: `GeneralChainConfig`, whose declaration is outside
the sources at hand, with the general settings the specification lists for a
chain (`id`, `endpoint`, `from`, `keystorePath`, `insecure`, `latestBlock`,
`freshStart`). -/
structure GeneralChainConfig where
  Id : Option Uint8
  Endpoint : String
  From : String
  KeystorePath : String
  Insecure : Bool
  LatestBlock : Bool
  FreshStart : Bool
  deriving DecidableEq

/-- `RawEVMConfig`. An `int64` field is an integer, the `uint64` one a natural
number, and the `float64` multiplier a finite float (`mant = 0` is the value 0). -/
structure RawEVMConfig where
  GeneralChainConfig : GeneralChainConfig
  Bridge : String
  Erc20Handlers : List String
  Erc721Handlers : List String
  GenericHandlers : List String
  MaxGasPrice : Int
  GasMultiplier : BigFloat
  GasLimit : Int
  StartBlock : Int
  BlockConfirmations : Int
  BlockRetryInterval : Nat
  deriving DecidableEq

/-- `EVMConfig`; `BlockRetryInterval` is a `time.Duration`, in nanoseconds. -/
structure EVMConfig where
  GeneralChainConfig : GeneralChainConfig
  Bridge : String
  Erc20Handlers : List String
  Erc721Handlers : List String
  GenericHandlers : List String
  MaxGasPrice : Int
  GasMultiplier : BigFloat
  GasLimit : Int
  StartBlock : Int
  BlockConfirmations : Int
  BlockRetryInterval : Int
  deriving DecidableEq

/-- What `evm.go` takes from packages outside the sources at hand: the two
methods of `GeneralChainConfig` it calls and the defaults of `consts`. -/
structure ConfigDeps where
  /-- `(*GeneralChainConfig).Validate()` -/
  Validate : GeneralChainConfig → GoError
  /-- `(*GeneralChainConfig).ParseFlags()`, as the configuration it leaves -/
  ParseFlags : GeneralChainConfig → GeneralChainConfig
  DefaultBlockRetryInterval : Int
  DefaultGasLimit : Int
  DefaultGasPrice : Int
  DefaultGasMultiplier : BigFloat
  DefaultBlockConfirmations : Int

/-- `(*RawEVMConfig).Validate()`. The message for an empty `Bridge` dereferences
`c.Id`. -/
def RawEVMConfig.Validate (deps : ConfigDeps) (c : RawEVMConfig) : Exec RawEVMConfig GoError :=
  match deps.Validate c.GeneralChainConfig with
  | some err => .ret c (some err)
  | none =>
    if c.Bridge = "" then
      match c.GeneralChainConfig.Id with
      | none => .abort "invalid memory address or nil pointer dereference"
      | some _ => .ret c (some "required field chain.Bridge empty for chain")
    else if c.BlockConfirmations ≠ 0 ∧ c.BlockConfirmations < 1 then
      .ret c (some "blockConfirmations has to be >=1")
    else .ret c none

/-- `NewEVMConfig(chainConfig)` over the result of `mapstructure.Decode` on the raw
map: the configuration or the error returned, or a run-time abort. -/
def NewEVMConfig (deps : ConfigDeps) (decoded : Except String RawEVMConfig) :
    Exec Unit (Except String EVMConfig) :=
  match decoded with
  | .error err => .ret () (.error err)
  | .ok c =>
    match c.Validate deps with
    | .abort msg => .abort msg
    | .ret _ (some err) => .ret () (.error err)
    | .ret c none =>
      let general := deps.ParseFlags c.GeneralChainConfig
      let config : EVMConfig :=
        { GeneralChainConfig := general
          Erc20Handlers := c.Erc20Handlers
          Erc721Handlers := c.Erc721Handlers
          GenericHandlers := c.GenericHandlers
          Bridge := c.Bridge
          BlockRetryInterval := deps.DefaultBlockRetryInterval
          GasLimit := deps.DefaultGasLimit
          MaxGasPrice := deps.DefaultGasPrice
          GasMultiplier := deps.DefaultGasMultiplier
          StartBlock := c.StartBlock
          BlockConfirmations := deps.DefaultBlockConfirmations }
      let config := if c.GasLimit ≠ 0 then { config with GasLimit := c.GasLimit } else config
      let config :=
        if c.MaxGasPrice ≠ 0 then { config with MaxGasPrice := c.MaxGasPrice } else config
      let config :=
        if c.GasMultiplier.mant ≠ 0 then { config with GasMultiplier := c.GasMultiplier }
        else config
      let config :=
        if c.BlockConfirmations ≠ 0 then
          { config with BlockConfirmations := c.BlockConfirmations }
        else config
      let config :=
        if c.BlockRetryInterval ≠ 0 then
          { config with
            BlockRetryInterval := toInt64 (toInt64 c.BlockRetryInterval * 1000000000) }
        else config
      .ret () (.ok config)

/-- Defaults for the scenarios below; every general configuration is accepted and
`ParseFlags` changes nothing. -/
def testDeps : ConfigDeps :=
  { Validate := fun _ => none
    ParseFlags := fun g => g
    DefaultBlockRetryInterval := 5000000000
    DefaultGasLimit := 2000000
    DefaultGasPrice := 20000000000
    DefaultGasMultiplier := { neg := false, mant := 1, exp := 0 }
    DefaultBlockConfirmations := 10 }

/-- A raw configuration that sets the chain id, the endpoint, the bridge address
and `blockConfirmations`, and leaves everything else unset. -/
def rawConfig (blockConfirmations : Int) : RawEVMConfig :=
  { GeneralChainConfig :=
      { Id := some 1, Endpoint := "ws://localhost:8545", From := "", KeystorePath := "",
        Insecure := false, LatestBlock := false, FreshStart := false }
    Bridge := "0x1234"
    Erc20Handlers := []
    Erc721Handlers := []
    GenericHandlers := []
    MaxGasPrice := 0
    GasMultiplier := { neg := false, mant := 0, exp := 0 }
    GasLimit := 0
    StartBlock := 0
    BlockConfirmations := blockConfirmations
    BlockRetryInterval := 0 }

/-! ## Proposals (`chains/evm/voter/proposal/proposal.go`) -/

/-- `proposal.Proposal`; `DepositNonce` and `DepositBlock` are `uint64`. -/
structure Proposal where
  DepositTxHash : List Uint8
  DepositBlock : Nat
  Source : Uint8
  DepositNonce : Nat
  ResourceId : ResourceID
  Payload : List Value
  Data : List Uint8
  HandlerAddress : Address
  BridgeAddress : Address
  deriving DecidableEq

/-- The byte string `GetID` hashes: `append([]byte{p.Source}, byte(p.DepositNonce))`,
where the conversion to `byte` keeps the low eight bits. -/
def Proposal.idBytes (p : Proposal) : List Uint8 :=
  [p.Source] ++ [⟨p.DepositNonce % 256, Nat.mod_lt _ (by decide)⟩]

/-- `(*Proposal).GetID()` over the hash function `crypto.Keccak256Hash`. -/
def Proposal.GetID (Keccak256Hash : List Uint8 → List Uint8) (p : Proposal) : List Uint8 :=
  Keccak256Hash p.idBytes

/-- A proposal of chain 1 with the given deposit nonce. -/
def proposalWithNonce (nonce : Nat) : Proposal :=
  { DepositTxHash := [], DepositBlock := 0, Source := 1, DepositNonce := nonce,
    ResourceId := resourceOne, Payload := [], Data := [], HandlerAddress := 0,
    BridgeAddress := 0 }

/-! ## EVM client: the latest block -/

/-- The local type `headerNumber` of `evm-client.go`: `Number` is a `*big.Int`. -/
structure headerNumber where
  Number : Option Int
  deriving DecidableEq, Repr

/-- `(*EVMClient).LatestBlock()` over what `CallContext` leaves: the pointer `head`
(nil when the reply is `null` or the call failed before decoding) and the error.
The return statement reads `head.Number` whatever `head` is. -/
def LatestBlock (head : Option headerNumber) (err : GoError) : Exec Unit (Option Int × GoError) :=
  let err := if err = none ∧ head = none then some "not found" else err
  match head with
  | none => .abort "invalid memory address or nil pointer dereference"
  | some hd => .ret () (hd.Number, err)

/-! ## A node that never answers -/

/-- A node that fails every `PendingNonceAt` query. -/
def deadNode : NonceOracle :=
  fun _ => .error "connection refused"

/-! ## The domain map a resource table induces -/

/-- The decimals of the resource of `m` on a chain, in the table `T`. -/
def tokenDecimals (T : Uint8 → Option (ResourceID → Option Uint8)) (m : Message)
    (domainID : Uint8) : Option Uint8 :=
  match T domainID with
  | none => none
  | some decimals => decimals m.ResourceId

/-- The domain map `{m.Source -> T[m.Source][m.ResourceId], m.Destination ->
T[m.Destination][m.ResourceId]}`. -/
def inducedDecimalsMap (T : Uint8 → Option (ResourceID → Option Uint8)) (m : Message) :
    Uint8 → Option Uint8 :=
  fun domainID =>
    if domainID = m.Source ∨ domainID = m.Destination then tokenDecimals T m domainID else none

end Sygma

/-! # Theorems -/

namespace Sygma

/-! ## Byte strings -/

theorem SetBytes_append_singleton (l : List Uint8) (b : Uint8) :
    SetBytes (l ++ [b]) = SetBytes l * 256 + b.val := by
  simp [SetBytes, List.foldl_append]

theorem SetBytes_bytesBE : ∀ (fuel n : Nat), n ≤ fuel → SetBytes (bytesBE fuel n) = n
  | 0, n, h => by
    have h0 : n = 0 := by omega
    subst h0
    simp [bytesBE, SetBytes]
  | fuel + 1, n, h => by
    unfold bytesBE
    split
    · next h0 => simp [SetBytes, h0]
    · next h0 =>
      have hlt : n / 256 ≤ fuel := by omega
      rw [SetBytes_append_singleton, SetBytes_bytesBE fuel (n / 256) hlt]
      simp only
      omega

/-- Reading back the bytes of a number gives the number. -/
theorem SetBytes_Bytes (n : Nat) : SetBytes (Bytes n) = n :=
  SetBytes_bytesBE n n (Nat.le_refl n)

theorem Uint8.val_sub_of_lt {a b : Uint8} (h : b < a) : (a - b).val = a.val - b.val := by
  have hb := b.isLt
  have ha := a.isLt
  have hlt : b.val < a.val := h
  rw [Fin.sub_def]
  simp only
  omega

/-! ## The domain-keyed processor on a well-formed input -/

/-- With both decimals in the map and a byte slice at `Payload[0]`, the processor
succeeds and what it leaves is determined by the two decimals. -/
theorem adjustDecimals_run (decimalsMap : Uint8 → Option Uint8) (args : List Arg) (m : Message)
    (s d : Uint8) (amountByte : List Uint8)
    (hs : decimalsMap m.Source = some s) (hd : decimalsMap m.Destination = some d)
    (hp : m.Payload[0]? = some (Value.bytes amountByte)) :
    AdjustDecimalsForERC20AmountMessageProcessor (.decimalsMap decimalsMap :: args) m =
      if d < s then
        .ret { m with
          Payload := m.Payload.set 0 (.bytes (Bytes (SetBytes amountByte / 10 ^ (s.val - d.val)))) }
          none
      else if s < d then
        .ret { m with
          Payload := m.Payload.set 0 (.bytes (Bytes (SetBytes amountByte * 10 ^ (d.val - s.val)))) }
          none
      else .ret m none := by
  simp only [AdjustDecimalsForERC20AmountMessageProcessor, hs, hd, hp]
  by_cases h1 : d < s
  · simp [h1, Uint8.val_sub_of_lt h1]
  · by_cases h2 : s < d
    · simp [h1, h2, Uint8.val_sub_of_lt h2]
    · simp [h1, h2]

theorem getElem?_zero_set_of_some {α : Type} (l : List α) (v w : α) (h : l[0]? = some w) :
    (l.set 0 v)[0]? = some v := by
  cases l with
  | nil => simp at h
  | cons x xs => simp

/-- The amount that comes back from a round trip: the original one, floored to a
multiple of `10 ^ (s - d)` when the first leg goes to fewer decimals. -/
theorem roundTrip_eq (decimalsMap : Uint8 → Option Uint8) (m : Message)
    (s d : Uint8) (amountByte : List Uint8)
    (hs : decimalsMap m.Source = some s) (hd : decimalsMap m.Destination = some d)
    (hp : m.Payload[0]? = some (Value.bytes amountByte)) :
    roundTrip decimalsMap m =
      some (if d < s then SetBytes amountByte / 10 ^ (s.val - d.val) * 10 ^ (s.val - d.val)
        else SetBytes amountByte) := by
  unfold roundTrip
  rw [adjustDecimals_run decimalsMap [] m s d amountByte hs hd hp]
  by_cases h1 : d < s
  · have h3 : ¬ s < d := fun h => absurd h1 (not_lt_of_gt h)
    simp only [h1, if_true]
    rw [adjustDecimals_run decimalsMap [] _ d s
      (Bytes (SetBytes amountByte / 10 ^ (s.val - d.val))) (by simpa [returning] using hd)
      (by simpa [returning] using hs)
      (by simpa [returning] using getElem?_zero_set_of_some m.Payload _ _ hp)]
    simp only [h3, h1, if_true, if_false]
    simp [amountOf, returning, getElem?_zero_set_of_some _ _ _ hp, SetBytes_Bytes]
  · by_cases h2 : s < d
    · simp only [h1, h2, if_true, if_false]
      rw [adjustDecimals_run decimalsMap [] _ d s
        (Bytes (SetBytes amountByte * 10 ^ (d.val - s.val))) (by simpa [returning] using hd)
        (by simpa [returning] using hs)
        (by simpa [returning] using getElem?_zero_set_of_some m.Payload _ _ hp)]
      simp only [h2, if_true]
      simp [amountOf, returning, getElem?_zero_set_of_some _ _ _ hp, SetBytes_Bytes]
    · simp only [h1, h2, if_false]
      rw [adjustDecimals_run decimalsMap [] _ d s amountByte (by simpa [returning] using hd)
        (by simpa [returning] using hs) (by simpa [returning] using hp)]
      simp [h1, h2, amountOf, returning, hp]

/-! ## Decimal adjustment: the amount -/

/-- The first scenario of `TestAdjustDecimalsForERC20AmountMessageProcessor`:
145.5567 tokens with 18 decimals become 14555 with 2 decimals. -/
theorem test_floor_down :
    AdjustDecimalsForERC20AmountMessageProcessor [.decimalsMap testDecimals] sentMessage =
      .ret adjustedMessage none := by
  decide

/-- The second scenario of the test: 14555 with 2 decimals becomes
145550000000000000000 with 18 decimals. -/
theorem test_scale_up :
    AdjustDecimalsForERC20AmountMessageProcessor [.decimalsMap testDecimals]
        (testMessage 2 1 .FungibleTransfer [.bytes (Bytes 14555)]) =
      .ret (testMessage 2 1 .FungibleTransfer [.bytes (Bytes 145550000000000000000)]) none := by
  decide

/-- C1: with decimals `s` for the source and `d` for the destination in the map
and a byte slice encoding the amount `a` at `Payload[0]`, the processor returns
no error and leaves at `Payload[0]` a byte slice that decodes to `a / 10 ^ (s - d)`
(floor) when `s > d` and to `a * 10 ^ (d - s)` when `s < d`. -/
theorem adjustDecimals_amount (decimalsMap : Uint8 → Option Uint8) (args : List Arg)
    (m : Message) (s d : Uint8) (amountByte : List Uint8)
    (hs : decimalsMap m.Source = some s) (hd : decimalsMap m.Destination = some d)
    (hp : m.Payload[0]? = some (Value.bytes amountByte)) :
    ∃ m' out,
      AdjustDecimalsForERC20AmountMessageProcessor (.decimalsMap decimalsMap :: args) m
        = .ret m' none ∧
      m'.Payload[0]? = some (Value.bytes out) ∧
      (d < s → SetBytes out = SetBytes amountByte / 10 ^ (s.val - d.val)) ∧
      (s < d → SetBytes out = SetBytes amountByte * 10 ^ (d.val - s.val)) := by
  rw [adjustDecimals_run decimalsMap args m s d amountByte hs hd hp]
  by_cases h1 : d < s
  · have h3 : ¬ s < d := fun h => absurd h1 (not_lt_of_gt h)
    rw [if_pos h1]
    refine ⟨_, Bytes (SetBytes amountByte / 10 ^ (s.val - d.val)), rfl,
      getElem?_zero_set_of_some _ _ _ hp, ?_, ?_⟩
    · intro _
      exact SetBytes_Bytes _
    · intro h
      exact absurd h h3
  · by_cases h2 : s < d
    · rw [if_neg h1, if_pos h2]
      refine ⟨_, Bytes (SetBytes amountByte * 10 ^ (d.val - s.val)), rfl,
        getElem?_zero_set_of_some _ _ _ hp, ?_, ?_⟩
      · intro h
        exact absurd h h1
      · intro _
        exact SetBytes_Bytes _
    · rw [if_neg h1, if_neg h2]
      refine ⟨m, amountByte, rfl, hp, ?_, ?_⟩
      · intro h
        exact absurd h h1
      · intro h
        exact absurd h h2

/-- The theorem of C1 at the first scenario of the test (`s = 18`, `d = 2`), with
the two amounts of the test: 145556700000000000000 floors to 14555, and 14555
scales back up to 145550000000000000000. -/
theorem adjustDecimals_amount_witness :
    (∃ m' out,
      AdjustDecimalsForERC20AmountMessageProcessor [.decimalsMap testDecimals] sentMessage
        = .ret m' none ∧
      m'.Payload[0]? = some (Value.bytes out) ∧
      ((2 : Uint8) < 18 → SetBytes out =
        SetBytes (Bytes 145556700000000000000) / 10 ^ ((18 : Uint8).val - (2 : Uint8).val)) ∧
      ((18 : Uint8) < 2 → SetBytes out =
        SetBytes (Bytes 145556700000000000000) * 10 ^ ((2 : Uint8).val - (18 : Uint8).val))) ∧
    SetBytes (Bytes 145556700000000000000) / 10 ^ ((18 : Uint8).val - (2 : Uint8).val) = 14555 ∧
    SetBytes (Bytes 14555) * 10 ^ ((18 : Uint8).val - (2 : Uint8).val) = 145550000000000000000 :=
  ⟨adjustDecimals_amount testDecimals [] sentMessage 18 2 (Bytes 145556700000000000000)
      (by decide) (by decide) (by decide),
    by decide, by decide⟩

/-! ## Decimal adjustment: direction -/

/-- C2: when the processor succeeds on an amount `a` with decimals `s` for the
source and `d` for the destination, the amount `a'` it leaves satisfies `a' ≤ a`
when `s > d` and `a' ≥ a` when `s < d`, and `Payload[0]` is untouched when
`s = d`. -/
theorem adjustDecimals_monotone (decimalsMap : Uint8 → Option Uint8) (args : List Arg)
    (m m' : Message) (s d : Uint8) (amountByte : List Uint8)
    (hs : decimalsMap m.Source = some s) (hd : decimalsMap m.Destination = some d)
    (hp : m.Payload[0]? = some (Value.bytes amountByte))
    (hrun : AdjustDecimalsForERC20AmountMessageProcessor (.decimalsMap decimalsMap :: args) m
      = .ret m' none) :
    ∃ out, m'.Payload[0]? = some (Value.bytes out) ∧
      (d < s → SetBytes out ≤ SetBytes amountByte) ∧
      (s < d → SetBytes amountByte ≤ SetBytes out) ∧
      (s = d → m'.Payload[0]? = m.Payload[0]?) := by
  rw [adjustDecimals_run decimalsMap args m s d amountByte hs hd hp] at hrun
  by_cases h1 : d < s
  · have h3 : ¬ s < d := fun h => absurd h1 (not_lt_of_gt h)
    rw [if_pos h1] at hrun
    injection hrun with hm _
    subst hm
    refine ⟨_, getElem?_zero_set_of_some _ _ _ hp, ?_, ?_, ?_⟩
    · intro _
      rw [SetBytes_Bytes]
      exact Nat.div_le_self _ _
    · intro h
      exact absurd h h3
    · intro h
      exact absurd h1 (by rw [h]; exact lt_irrefl d)
  · by_cases h2 : s < d
    · rw [if_neg h1, if_pos h2] at hrun
      injection hrun with hm _
      subst hm
      refine ⟨_, getElem?_zero_set_of_some _ _ _ hp, ?_, ?_, ?_⟩
      · intro h
        exact absurd h h1
      · intro _
        rw [SetBytes_Bytes]
        exact Nat.le_mul_of_pos_right _ (Nat.pos_pow_of_pos _ (by decide))
      · intro h
        exact absurd h2 (by rw [h]; exact lt_irrefl d)
    · rw [if_neg h1, if_neg h2] at hrun
      injection hrun with hm _
      subst hm
      refine ⟨amountByte, hp, ?_, ?_, ?_⟩
      · intro h
        exact absurd h h1
      · intro h
        exact absurd h h2
      · intro _
        rfl

/-- The theorem of C2 at the first scenario of the test. -/
theorem adjustDecimals_monotone_witness :
    ∃ out, adjustedMessage.Payload[0]? = some (Value.bytes out) ∧
      ((2 : Uint8) < 18 → SetBytes out ≤ SetBytes (Bytes 145556700000000000000)) ∧
      ((18 : Uint8) < 2 → SetBytes (Bytes 145556700000000000000) ≤ SetBytes out) ∧
      ((18 : Uint8) = 2 → adjustedMessage.Payload[0]? = sentMessage.Payload[0]?) :=
  adjustDecimals_monotone testDecimals [] sentMessage adjustedMessage 18 2
    (Bytes 145556700000000000000) (by decide) (by decide) (by decide) test_floor_down

/-! ## Decimal adjustment: round trips -/

/-- C3, as stated, fails: 145556700000000000000 sent from the chain with 18
decimals to the chain with 2 decimals and back returns as 145550000000000000000. -/
theorem roundTrip_not_identity :
    amountOf sentMessage = some 145556700000000000000 ∧
    roundTrip testDecimals sentMessage = some 145550000000000000000 ∧
    roundTrip testDecimals sentMessage ≠ amountOf sentMessage := by
  decide

/-- C3, amended: with decimals `s` for chain A and `d` for chain B from the same
map, an amount `a` sent from A to B and back returns, and it returns as `a` exactly
when `s ≤ d` or `10 ^ (s - d)` divides `a`. -/
theorem roundTrip_identity_iff (decimalsMap : Uint8 → Option Uint8) (m : Message)
    (s d : Uint8) (amountByte : List Uint8)
    (hs : decimalsMap m.Source = some s) (hd : decimalsMap m.Destination = some d)
    (hp : m.Payload[0]? = some (Value.bytes amountByte)) :
    ∃ a', roundTrip decimalsMap m = some a' ∧
      (a' = SetBytes amountByte ↔
        (s ≤ d ∨ 10 ^ (s.val - d.val) ∣ SetBytes amountByte)) := by
  refine ⟨_, roundTrip_eq decimalsMap m s d amountByte hs hd hp, ?_⟩
  by_cases h1 : d < s
  · have h3 : ¬ s ≤ d := not_le_of_gt h1
    simp only [h1, if_true, h3, false_or]
    constructor
    · intro h
      exact Dvd.intro_left _ h
    · intro h
      exact Nat.div_mul_cancel h
  · have h3 : s ≤ d := not_lt.mp h1
    simp [h1, h3]

/-- The theorem of C3 (amended) at the second scenario of the test: 14555 sent
from the chain with 2 decimals to the chain with 18 decimals comes back as 14555. -/
theorem roundTrip_identity_iff_witness :
    (∃ a', roundTrip testDecimals (testMessage 2 1 .FungibleTransfer [.bytes (Bytes 14555)])
        = some a' ∧
      (a' = SetBytes (Bytes 14555) ↔
        ((2 : Uint8) ≤ 18 ∨
          10 ^ ((2 : Uint8).val - (18 : Uint8).val) ∣ SetBytes (Bytes 14555)))) ∧
    roundTrip testDecimals (testMessage 2 1 .FungibleTransfer [.bytes (Bytes 14555)])
      = some 14555 :=
  ⟨roundTrip_identity_iff testDecimals
      (testMessage 2 1 .FungibleTransfer [.bytes (Bytes 14555)]) 2 18 (Bytes 14555)
      (by decide) (by decide) (by decide),
    by decide⟩

/-! ## Decimal adjustment: what a run may change -/

theorem adjustDecimals_touched (args : List Arg) (m m' : Message) (e : GoError)
    (hrun : AdjustDecimalsForERC20AmountMessageProcessor args m = .ret m' e) :
    Touched m m' e := by
  unfold AdjustDecimalsForERC20AmountMessageProcessor at hrun
  unfold Touched
  repeat' split at hrun
  all_goals try dsimp only at hrun
  all_goals cases hrun
  all_goals first
    | (left; simp; done)
    | (left; simp_all; done)
    | (right; exact ⟨rfl, _, _, by assumption, rfl⟩)

theorem adjustDecimalsIndividual_touched (args : List Arg) (m m' : Message) (e : GoError)
    (hrun : AdjustDecimalsForIndividualERC20AmountMessageProcessor args m = .ret m' e) :
    Touched m m' e := by
  unfold AdjustDecimalsForIndividualERC20AmountMessageProcessor at hrun
  unfold Touched
  repeat' split at hrun
  all_goals try dsimp only at hrun
  all_goals cases hrun
  all_goals first
    | (left; simp; done)
    | (left; simp_all; done)
    | (right; exact ⟨rfl, _, _, by assumption, rfl⟩)

theorem getElem?_set_zero_of_ne {α : Type} (l : List α) (v : α) (i : Nat) (h : i ≠ 0) :
    (l.set 0 v)[i]? = l[i]? := by
  cases l with
  | nil => simp
  | cons x xs =>
    cases i with
    | zero => exact absurd rfl h
    | succ j => simp

/-- C5: when the domain-keyed or the resource-keyed processor returns, with
success or with an error, `Source`, `Destination`, `Type`, `ResourceId`,
`DepositNonce` (and the block and hash of the deposit), the length of `Payload`
and every `Payload` element at an index other than 0 are as before; `Payload[0]`
is a byte slice after a success and stays one if it was one; after an error the
message, `Payload[0]` included, is as before. -/
theorem processors_preserve_schema (args : List Arg) (m m' : Message) (e : GoError)
    (hrun : AdjustDecimalsForERC20AmountMessageProcessor args m = .ret m' e ∨
      AdjustDecimalsForIndividualERC20AmountMessageProcessor args m = .ret m' e) :
    m'.Source = m.Source ∧ m'.Destination = m.Destination ∧ m'.Type_ = m.Type_ ∧
    m'.ResourceId = m.ResourceId ∧ m'.DepositNonce = m.DepositNonce ∧
    m'.DepositBlock = m.DepositBlock ∧ m'.DepositTxHash = m.DepositTxHash ∧
    m'.Payload.length = m.Payload.length ∧
    (∀ i : Nat, i ≠ 0 → m'.Payload[i]? = m.Payload[i]?) ∧
    (e = none → ∃ b, m'.Payload[0]? = some (Value.bytes b)) ∧
    ((∃ b, m.Payload[0]? = some (Value.bytes b)) →
      ∃ b, m'.Payload[0]? = some (Value.bytes b)) ∧
    (e ≠ none → m'.Payload[0]? = m.Payload[0]? ∧ m' = m) := by
  have ht : Touched m m' e := by
    rcases hrun with h | h
    · exact adjustDecimals_touched args m m' e h
    · exact adjustDecimalsIndividual_touched args m m' e h
  rcases ht with ⟨hm, hb⟩ | ⟨he, b, b', hb, hm⟩
  · subst hm
    refine ⟨rfl, rfl, rfl, rfl, rfl, rfl, rfl, rfl, fun _ _ => rfl, hb, fun h => h,
      fun _ => ⟨rfl, rfl⟩⟩
  · subst hm
    subst he
    refine ⟨rfl, rfl, rfl, rfl, rfl, rfl, rfl, by simp, ?_, ?_, ?_, ?_⟩
    · intro i hi
      exact getElem?_set_zero_of_ne _ _ i hi
    · intro _
      exact ⟨b', getElem?_zero_set_of_some _ _ _ hb⟩
    · intro _
      exact ⟨b', getElem?_zero_set_of_some _ _ _ hb⟩
    · intro h
      exact absurd rfl h

/-- The theorem of C5 on the first scenario of the test. -/
theorem processors_preserve_schema_witness :
    adjustedMessage.Source = sentMessage.Source ∧
    adjustedMessage.Destination = sentMessage.Destination ∧
    adjustedMessage.Type_ = sentMessage.Type_ ∧
    adjustedMessage.ResourceId = sentMessage.ResourceId ∧
    adjustedMessage.DepositNonce = sentMessage.DepositNonce ∧
    adjustedMessage.DepositBlock = sentMessage.DepositBlock ∧
    adjustedMessage.DepositTxHash = sentMessage.DepositTxHash ∧
    adjustedMessage.Payload.length = sentMessage.Payload.length ∧
    (∀ i : Nat, i ≠ 0 → adjustedMessage.Payload[i]? = sentMessage.Payload[i]?) ∧
    ((none : GoError) = none → ∃ b, adjustedMessage.Payload[0]? = some (Value.bytes b)) ∧
    ((∃ b, sentMessage.Payload[0]? = some (Value.bytes b)) →
      ∃ b, adjustedMessage.Payload[0]? = some (Value.bytes b)) ∧
    ((none : GoError) ≠ none →
      adjustedMessage.Payload[0]? = sentMessage.Payload[0]? ∧ adjustedMessage = sentMessage) :=
  processors_preserve_schema [.decimalsMap testDecimals] sentMessage adjustedMessage none
    (Or.inl test_floor_down)

/-! ## Decimal adjustment and the kind of the message -/

/-- The automatic processor returns at once, without error and without touching
the message, when the message is not a fungible transfer. -/
theorem autoProcessor_skips_other_kinds (env : ContractReads) (args : List Arg) (m : Message)
    (h : m.Type_ ≠ TransferType.FungibleTransfer) :
    AdjustDecimalsForERC20AmountMessageAutoProcessor env args m = .ret m none := by
  unfold AdjustDecimalsForERC20AmountMessageAutoProcessor
  rw [if_pos h]

/-- C4, at a failing input: on a `NonFungibleTransfer` message from chain 1 to
chain 2 whose `Payload[0]` holds the bytes of 145556700000000000000, the
domain-keyed processor with decimals 18 and 2 and the resource-keyed one with the
same decimals for the resource both rewrite `Payload[0]` to the bytes of 14555,
and the domain-keyed processor without a decimals map returns an error. -/
theorem adjustDecimals_ignores_kind :
    AdjustDecimalsForERC20AmountMessageProcessor [.decimalsMap testDecimals]
        (testMessage 1 2 .NonFungibleTransfer [.bytes (Bytes 145556700000000000000)]) =
      .ret (testMessage 1 2 .NonFungibleTransfer [.bytes (Bytes 14555)]) none ∧
    AdjustDecimalsForIndividualERC20AmountMessageProcessor [.decimalsTokenMap testTokenDecimals]
        (testMessage 1 2 .NonFungibleTransfer [.bytes (Bytes 145556700000000000000)]) =
      .ret (testMessage 1 2 .NonFungibleTransfer [.bytes (Bytes 14555)]) none ∧
    AdjustDecimalsForERC20AmountMessageProcessor []
        (testMessage 1 2 .NonFungibleTransfer [.bytes (Bytes 145556700000000000000)]) =
      .ret (testMessage 1 2 .NonFungibleTransfer [.bytes (Bytes 145556700000000000000)])
        (some "processor requires 1 argument") := by
  decide

/-! ## EIP-1559 gas pricing -/

/-- The three branches of `EstimateGasLondon` for a base fee that is not negative. -/
theorem estimateGasLondon_eq (cfg : SharedEVMConfig) (tipAnswer : Except String Int) (b : Int)
    (hb : 0 ≤ b) :
    EstimateGasLondon cfg tipAnswer b =
      if cfg.MaxGasPrice < b then .ok (1, b + 1)
      else match tipAnswer with
        | .error err => .error err
        | .ok t =>
          if cfg.MaxGasPrice < t + 2 * b then .ok (cfg.MaxGasPrice - b, cfg.MaxGasPrice)
          else .ok (t, t + 2 * b) := by
  unfold EstimateGasLondon
  by_cases h1 : cfg.MaxGasPrice < b
  · simp [h1]
  · cases tipAnswer with
    | error err => simp [h1]
    | ok t =>
      have h2 : ¬ (t + 2 * b < t) := by omega
      have h3 : t + b * 2 = t + 2 * b := by ring
      simp only [h1, if_false, gt_iff_lt, h3, h2]

/-- C6: for a base fee `b ≥ 0`, a suggested tip `t` and the configured maximum
`M`, `EstimateGasLondon` returns `(tip, maxFee) = (1, b + 1)` when `M < b`,
whatever `SuggestGasTipCap` would answer; otherwise `(M - b, M)` when
`t + 2 * b > M`; otherwise `(t, t + 2 * b)`. -/
theorem estimateGasLondon_policy (cfg : SharedEVMConfig) (b t : Int) (hb : 0 ≤ b) :
    (cfg.MaxGasPrice < b →
      ∀ tipAnswer : Except String Int, EstimateGasLondon cfg tipAnswer b = .ok (1, b + 1)) ∧
    (¬ cfg.MaxGasPrice < b → t + 2 * b > cfg.MaxGasPrice →
      EstimateGasLondon cfg (.ok t) b = .ok (cfg.MaxGasPrice - b, cfg.MaxGasPrice)) ∧
    (¬ cfg.MaxGasPrice < b → ¬ t + 2 * b > cfg.MaxGasPrice →
      EstimateGasLondon cfg (.ok t) b = .ok (t, t + 2 * b)) := by
  refine ⟨?_, ?_, ?_⟩
  · intro h tipAnswer
    rw [estimateGasLondon_eq cfg tipAnswer b hb, if_pos h]
  · intro h1 h2
    rw [estimateGasLondon_eq cfg (.ok t) b hb, if_neg h1]
    simp only
    rw [if_pos h2]
  · intro h1 h2
    rw [estimateGasLondon_eq cfg (.ok t) b hb, if_neg h1]
    simp only
    rw [if_neg h2]

/-- The theorem of C6 at the gas scenario of the specification with the maximum
150, together with the values of both scenarios: base fee 100 and tip 2 give
`(2, 202)` under the maximum 250 and `(50, 150)` under the maximum 150. -/
theorem estimateGasLondon_policy_witness :
    (0 : Int) ≤ 100 ∧
    (((gasConfig 150).MaxGasPrice < 100 →
      ∀ tipAnswer : Except String Int,
        EstimateGasLondon (gasConfig 150) tipAnswer 100 = .ok (1, 100 + 1)) ∧
    (¬ (gasConfig 150).MaxGasPrice < 100 → 2 + 2 * 100 > (gasConfig 150).MaxGasPrice →
      EstimateGasLondon (gasConfig 150) (.ok 2) 100
        = .ok ((gasConfig 150).MaxGasPrice - 100, (gasConfig 150).MaxGasPrice)) ∧
    (¬ (gasConfig 150).MaxGasPrice < 100 → ¬ 2 + 2 * 100 > (gasConfig 150).MaxGasPrice →
      EstimateGasLondon (gasConfig 150) (.ok 2) 100 = .ok (2, 2 + 2 * 100))) ∧
    EstimateGasLondon (gasConfig 150) (.ok 2) 100 = .ok (50, 150) ∧
    EstimateGasLondon (gasConfig 250) (.ok 2) 100 = .ok (2, 202) :=
  ⟨by decide, estimateGasLondon_policy (gasConfig 150) 100 2 (by decide), by decide, by decide⟩

/-- C7, as stated, fails: with the maximum 50, the base fee 100 and the suggested
tip 2 the call succeeds with `(tip, maxFee) = (1, 101)`, and 101 exceeds the
maximum. -/
theorem estimateGasLondon_exceeds_max :
    EstimateGasLondon (gasConfig 50) (.ok 2) 100 = .ok (1, 101) ∧
    (0 : Int) ≤ 100 ∧ (0 : Int) ≤ 2 ∧ 0 ≤ (gasConfig 50).MaxGasPrice ∧
    ¬ ((0 : Int) ≤ 1 ∧ (1 : Int) ≤ 101 ∧ 101 ≤ (gasConfig 50).MaxGasPrice) := by
  decide

/-- C7, amended: for a base fee `b ≥ 0` and a suggested tip that is not negative,
whenever `EstimateGasLondon` returns `(tip, maxFee)` without error,
`0 ≤ tip ≤ maxFee`; and `maxFee ≤ M` when `b ≤ M`, while for `M < b` the
result is `(1, b + 1)`, above `M`. -/
theorem estimateGasLondon_bounds (cfg : SharedEVMConfig) (tipAnswer : Except String Int)
    (b tip maxFee : Int) (hb : 0 ≤ b) (ht : ∀ t, tipAnswer = .ok t → 0 ≤ t)
    (hrun : EstimateGasLondon cfg tipAnswer b = .ok (tip, maxFee)) :
    0 ≤ tip ∧ tip ≤ maxFee ∧
    (b ≤ cfg.MaxGasPrice → maxFee ≤ cfg.MaxGasPrice) ∧
    (cfg.MaxGasPrice < b → tip = 1 ∧ maxFee = b + 1 ∧ cfg.MaxGasPrice < maxFee) := by
  rw [estimateGasLondon_eq cfg tipAnswer b hb] at hrun
  by_cases h1 : cfg.MaxGasPrice < b
  · rw [if_pos h1] at hrun
    injection hrun with h
    injection h with h2 h3
    subst h2
    subst h3
    refine ⟨by decide, by omega, fun h => by omega, fun _ => ⟨rfl, rfl, by omega⟩⟩
  · rw [if_neg h1] at hrun
    cases tipAnswer with
    | error err => simp at hrun
    | ok t =>
      have ht0 : 0 ≤ t := ht t rfl
      simp only at hrun
      by_cases h2 : cfg.MaxGasPrice < t + 2 * b
      · rw [if_pos h2] at hrun
        injection hrun with h
        injection h with h3 h4
        subst h3
        subst h4
        refine ⟨by omega, by omega, fun _ => le_refl _, fun h => absurd h h1⟩
      · rw [if_neg h2] at hrun
        injection hrun with h
        injection h with h3 h4
        subst h3
        subst h4
        refine ⟨ht0, by omega, fun _ => by omega, fun h => absurd h h1⟩

/-- The theorem of C7 (amended) at the gas scenario with the maximum 150. -/
theorem estimateGasLondon_bounds_witness :
    (0 : Int) ≤ 50 ∧ (50 : Int) ≤ 150 ∧
    ((100 : Int) ≤ (gasConfig 150).MaxGasPrice → 150 ≤ (gasConfig 150).MaxGasPrice) ∧
    ((gasConfig 150).MaxGasPrice < 100 →
      (50 : Int) = 1 ∧ (150 : Int) = 100 + 1 ∧ (gasConfig 150).MaxGasPrice < 150) :=
  estimateGasLondon_bounds (gasConfig 150) (.ok 2) 100 50 150 (by decide)
    (fun t h => by
      injection h with h
      subst h
      decide)
    (by decide)

/-! ## Legacy gas pricing -/

/-- Truncation of a non-negative `mant * 2 ^ exp` is its floor. -/
theorem truncToInt_eq_floor (mant : Nat) (exp : Int) :
    (truncToInt mant exp : Int) = ⌊(mant : ℚ) * (2 : ℚ) ^ exp⌋ := by
  unfold truncToInt
  by_cases h : 0 ≤ exp
  · rw [if_pos h]
    obtain ⟨n, rfl⟩ := Int.eq_ofNat_of_zero_le h
    have h1 : (mant : ℚ) * (2 : ℚ) ^ (n : ℤ) = (((mant * 2 ^ n : ℕ) : ℤ) : ℚ) := by
      push_cast
      rw [zpow_natCast]
    rw [h1, Int.floor_intCast]
    simp
  · rw [if_neg h]
    have hneg : 0 ≤ -exp := by omega
    obtain ⟨n, hn⟩ := Int.eq_ofNat_of_zero_le hneg
    have he : exp = -(n : ℤ) := by omega
    subst he
    have h1 : (mant : ℚ) * (2 : ℚ) ^ (-(n : ℤ)) = (mant : ℚ) / ((2 ^ n : ℕ) : ℚ) := by
      rw [zpow_neg, zpow_natCast]
      push_cast
      rw [div_eq_mul_inv]
    rw [h1, Rat.floor_natCast_div_natCast]
    simp

/-- Without rounding, that is when the product of the price and the mantissa of
the multiplier has no more bits than the precision `max(BitLen, 64)`, a
non-negative price times a non-negative multiplier gives the exact floor. -/
theorem multiplyGasPrice_exact (g : Int) (k : BigFloat) (hg : 0 ≤ g) (hk : k.neg = false)
    (hfit : BitLen (g.natAbs * k.mant) ≤ max (BitLen g.natAbs) 64) :
    multiplyGasPrice g k = ⌊(g : ℚ) * k.toRat⌋ := by
  have hshift : BitLen (g.natAbs * k.mant) - max (BitLen g.natAbs) 64 = 0 := by omega
  have hsign : (decide (g < 0) != k.neg) = false := by
    have : ¬ g < 0 := by omega
    simp [hk, this]
  unfold multiplyGasPrice roundToNearestEven
  simp only [hshift, if_true, hsign]
  rw [truncToInt_eq_floor]
  have hgabs : (g : ℚ) = ((g.natAbs : ℕ) : ℚ) := by
    obtain ⟨n, rfl⟩ := Int.eq_ofNat_of_zero_le hg
    simp
  unfold BigFloat.toRat
  rw [hk, hgabs]
  push_cast
  congr 1
  simp
  ring

/-- A number with `BitLen` bits is at least `2 ^ (BitLen - 1)`. -/
theorem two_pow_bitLenAux_le :
    ∀ (fuel n : Nat), n ≤ fuel → n ≠ 0 → 2 ^ bitLenAux fuel n ≤ 2 * n
  | 0, n, h, hn => absurd (Nat.le_zero.mp h) hn
  | fuel + 1, n, h, hn => by
    unfold bitLenAux
    rw [if_neg hn, Nat.pow_succ]
    by_cases h2 : n / 2 = 0
    · have hz : bitLenAux fuel (n / 2) = 0 := by
        rw [h2]
        cases fuel <;> simp [bitLenAux]
      rw [hz]
      omega
    · have ih := two_pow_bitLenAux_le fuel (n / 2) (by omega) h2
      omega

theorem two_pow_BitLen_le (n : Nat) (hn : n ≠ 0) : 2 ^ BitLen n ≤ 2 * n :=
  two_pow_bitLenAux_le n n (Nat.le_refl n) hn

/-- Rounding to at least 64 bits moves the mantissa by at most the fraction
`2 ^ (-64)` of it: with `t` the number of bits dropped, the rounded mantissa times
`2 ^ t` and the mantissa differ, either way, by at most `mant / 2 ^ 64`. -/
theorem roundToNearestEven_close (prec mant : Nat) (exp : Int) (hprec : 64 ≤ prec) :
    ∃ t : Nat, (roundToNearestEven prec mant exp).2 = exp + t ∧
      ((roundToNearestEven prec mant exp).1 * 2 ^ t - mant) * 2 ^ 64 ≤ mant ∧
      (mant - (roundToNearestEven prec mant exp).1 * 2 ^ t) * 2 ^ 64 ≤ mant := by
  unfold roundToNearestEven
  by_cases hshift : BitLen mant - prec = 0
  · refine ⟨0, ?_, ?_, ?_⟩ <;> simp [hshift]
  · simp only [hshift, if_false]
    obtain ⟨j, hj⟩ : ∃ j, BitLen mant - prec = j + 1 := ⟨BitLen mant - prec - 1, by omega⟩
    have hmant : mant ≠ 0 := by
      intro h0
      apply hshift
      rw [h0]
      simp [BitLen, bitLenAux]
    have hbits := two_pow_BitLen_le mant hmant
    have hlen : BitLen mant = (j + 64) + ((prec - 64) + 1) := by omega
    have hbig : 2 ^ j * 2 ^ 64 ≤ mant := by
      have hpow : 2 ^ BitLen mant = 2 ^ j * 2 ^ 64 * 2 ^ (prec - 64) * 2 := by
        rw [hlen]
        ring
      rw [hpow] at hbits
      have hpos : 0 < 2 ^ (prec - 64) := Nat.two_pow_pos _
      have hcore : 2 ^ j * 2 ^ 64 * 2 ^ (prec - 64) ≤ mant := by
        generalize 2 ^ j * 2 ^ 64 * 2 ^ (prec - 64) = c at hbits
        omega
      exact Nat.le_trans (Nat.le_mul_of_pos_right _ hpos) hcore
    have hdm := Nat.div_add_mod mant (2 ^ (j + 1))
    have hlt : mant % 2 ^ (j + 1) < 2 ^ (j + 1) := Nat.mod_lt _ (Nat.two_pow_pos _)
    have hS : 2 ^ (j + 1) = 2 * 2 ^ j := by rw [Nat.pow_succ, Nat.mul_comm]
    rw [hj]
    simp only [Nat.add_sub_cancel]
    generalize hq : mant / 2 ^ (j + 1) = q at hdm ⊢
    generalize hr : mant % 2 ^ (j + 1) = r at hdm hlt ⊢
    generalize hh : 2 ^ j = half at hS hbig ⊢
    rw [hS] at hdm hlt
    have hqS : 2 * half * q = q * (2 * half) := Nat.mul_comm _ _
    split
    · next hup =>
      refine ⟨j + 1, by push_cast; ring, ?_, ?_⟩
      · simp only
        rw [hS, Nat.add_mul, Nat.one_mul]
        have hge : half ≤ r := by
          rcases hup with h | ⟨h, _⟩
          · exact Nat.le_of_lt h
          · exact Nat.le_of_eq h.symm
        have hd : q * (2 * half) + 2 * half - mant ≤ half := by omega
        exact Nat.le_trans (Nat.mul_le_mul_right _ hd) hbig
      · simp only
        rw [hS, Nat.add_mul, Nat.one_mul]
        have hd : mant - (q * (2 * half) + 2 * half) = 0 := by omega
        rw [hd]
        simp
    · next hdown =>
      refine ⟨j + 1, by push_cast; ring, ?_, ?_⟩
      · simp only
        rw [hS]
        have hd : q * (2 * half) - mant = 0 := by omega
        rw [hd]
        simp
      · simp only
        rw [hS]
        have hle : r ≤ half := by
          by_contra hcon
          exact hdown (Or.inl (by omega))
        have hd : mant - q * (2 * half) ≤ half := by omega
        exact Nat.le_trans (Nat.mul_le_mul_right _ hd) hbig

/-- The value a rounding to at least 64 bits returns is within the fraction
`2 ^ (-64)` of the value rounded. -/
theorem rounded_value_close (prec mant : Nat) (exp : Int) (hprec : 64 ≤ prec) :
    |((roundToNearestEven prec mant exp).1 : ℚ) * (2 : ℚ) ^ (roundToNearestEven prec mant exp).2
        - (mant : ℚ) * (2 : ℚ) ^ exp| * 2 ^ 64
      ≤ (mant : ℚ) * (2 : ℚ) ^ exp := by
  obtain ⟨t, ht, hup, hdown⟩ := roundToNearestEven_close prec mant exp hprec
  rw [ht]
  generalize (roundToNearestEven prec mant exp).1 = q at hup hdown
  have hpos : (0 : ℚ) < (2 : ℚ) ^ exp := zpow_pos (by norm_num) exp
  have hsplit : (2 : ℚ) ^ (exp + (t : ℤ)) = (2 : ℚ) ^ exp * (2 : ℚ) ^ t := by
    rw [zpow_add₀ (by norm_num : (2 : ℚ) ≠ 0), zpow_natCast]
  have key : |((q * 2 ^ t : ℕ) : ℚ) - (mant : ℚ)| * 2 ^ 64 ≤ (mant : ℚ) := by
    rcases le_total (q * 2 ^ t) mant with h | h
    · have hc : ((mant - q * 2 ^ t : ℕ) : ℚ) = (mant : ℚ) - ((q * 2 ^ t : ℕ) : ℚ) :=
        Nat.cast_sub h
      rw [abs_sub_comm, abs_of_nonneg (sub_nonneg.mpr (by exact_mod_cast h)), ← hc]
      exact_mod_cast hdown
    · have hc : ((q * 2 ^ t - mant : ℕ) : ℚ) = ((q * 2 ^ t : ℕ) : ℚ) - (mant : ℚ) :=
        Nat.cast_sub h
      rw [abs_of_nonneg (sub_nonneg.mpr (by exact_mod_cast h)), ← hc]
      exact_mod_cast hup
  have hfactor : (q : ℚ) * ((2 : ℚ) ^ exp * (2 : ℚ) ^ t) - (mant : ℚ) * (2 : ℚ) ^ exp
      = (2 : ℚ) ^ exp * (((q * 2 ^ t : ℕ) : ℚ) - (mant : ℚ)) := by
    push_cast
    ring
  rw [hsplit, hfactor, abs_mul, abs_of_pos hpos]
  calc (2 : ℚ) ^ exp * |((q * 2 ^ t : ℕ) : ℚ) - (mant : ℚ)| * 2 ^ 64
      = (2 : ℚ) ^ exp * (|((q * 2 ^ t : ℕ) : ℚ) - (mant : ℚ)| * 2 ^ 64) := by ring
    _ ≤ (2 : ℚ) ^ exp * (mant : ℚ) := mul_le_mul_of_nonneg_left key (le_of_lt hpos)
    _ = (mant : ℚ) * (2 : ℚ) ^ exp := by ring

/-- The product of a non-negative price and a non-negative multiplier, as the
mantissa and exponent that `Mul` rounds. -/
theorem price_times_multiplier (g : Int) (k : BigFloat) (hg : 0 ≤ g) (hk : k.neg = false) :
    (g : ℚ) * k.toRat = ((g.natAbs * k.mant : ℕ) : ℚ) * (2 : ℚ) ^ k.exp := by
  have hgabs : (g : ℚ) = ((g.natAbs : ℕ) : ℚ) := by
    obtain ⟨n, rfl⟩ := Int.eq_ofNat_of_zero_le hg
    simp
  unfold BigFloat.toRat
  rw [hk, hgabs]
  push_cast
  simp
  ring

/-- For a non-negative price and multiplier, `multiplyGasPrice` is the floor of
the rounded product. -/
theorem multiplyGasPrice_eq_floor_rounded (g : Int) (k : BigFloat) (hg : 0 ≤ g)
    (hk : k.neg = false) :
    multiplyGasPrice g k =
      ⌊((roundToNearestEven (max (BitLen g.natAbs) 64) (g.natAbs * k.mant) k.exp).1 : ℚ)
        * (2 : ℚ) ^
          (roundToNearestEven (max (BitLen g.natAbs) 64) (g.natAbs * k.mant) k.exp).2⌋ := by
  have hsign : (decide (g < 0) != k.neg) = false := by
    have : ¬ g < 0 := by omega
    simp [hk, this]
  unfold multiplyGasPrice
  simp only [hsign]
  rw [← truncToInt_eq_floor]
  rfl

/-- The floor of the exact product of a non-negative price and multiplier. -/
theorem floor_price_times_multiplier (g : Int) (k : BigFloat) (hg : 0 ≤ g)
    (hk : k.neg = false) :
    ⌊(g : ℚ) * k.toRat⌋ = (truncToInt (g.natAbs * k.mant) k.exp : Int) := by
  rw [price_times_multiplier g k hg hk, truncToInt_eq_floor]

/-- C8, as stated, fails: for the suggested price `2 ^ 33 - 1 = 8589934591`, the
multiplier `1 + 2 ^ (-33)` and the maximum `10 ^ 12`, the floor of the product
`2 ^ 33 - 2 ^ (-33)` is 8589934591, but `SafeEstimateGas` returns 8589934592: the
float product is rounded to 64 bits before it is truncated. -/
theorem safeEstimateGas_not_floor :
    SafeEstimateGas roundingConfig (.ok 8589934591) = .ok 8589934592 ∧
    ⌊((8589934591 : Int) : ℚ) * roundingConfig.GasMultiplier.toRat⌋ = 8589934591 ∧
    SafeEstimateGas roundingConfig (.ok 8589934591) ≠
      .ok (min roundingConfig.MaxGasPrice
        ⌊((8589934591 : Int) : ℚ) * roundingConfig.GasMultiplier.toRat⌋) := by
  have hfloor : ⌊((8589934591 : Int) : ℚ) * roundingConfig.GasMultiplier.toRat⌋
      = 8589934591 := by
    rw [floor_price_times_multiplier 8589934591 roundingConfig.GasMultiplier (by decide) rfl]
    decide
  refine ⟨by decide, hfloor, ?_⟩
  rw [hfloor]
  decide

/-- C8, amended: for a suggested price `g ≥ 0` and a multiplier `k ≥ 0`,
`SafeEstimateGas` returns the smaller of `MaxGasPrice` and `multiplyGasPrice g k`,
so never more than `MaxGasPrice`; `multiplyGasPrice g k` is the floor of a value
`r` (the product rounded to `max(BitLen g, 64)` bits) with
`|r - k * g| ≤ k * g / 2 ^ 64`, so it lies between the floors of
`k * g * (1 - 2 ^ (-64))` and `k * g * (1 + 2 ^ (-64))`; and it is the floor of
`k * g` whenever the product needs no rounding, that is when the price times the
mantissa of the multiplier has no more than `max(BitLen g, 64)` bits. -/
theorem safeEstimateGas_min (cfg : SharedEVMConfig) (g : Int) (hg : 0 ≤ g)
    (hk : cfg.GasMultiplier.neg = false) :
    SafeEstimateGas cfg (.ok g)
      = .ok (min cfg.MaxGasPrice (multiplyGasPrice g cfg.GasMultiplier)) ∧
    min cfg.MaxGasPrice (multiplyGasPrice g cfg.GasMultiplier) ≤ cfg.MaxGasPrice ∧
    (∃ r : ℚ, multiplyGasPrice g cfg.GasMultiplier = ⌊r⌋ ∧
      |r - (g : ℚ) * cfg.GasMultiplier.toRat| * 2 ^ 64
        ≤ (g : ℚ) * cfg.GasMultiplier.toRat) ∧
    ⌊(g : ℚ) * cfg.GasMultiplier.toRat * (1 - 1 / 2 ^ 64)⌋
      ≤ multiplyGasPrice g cfg.GasMultiplier ∧
    multiplyGasPrice g cfg.GasMultiplier
      ≤ ⌊(g : ℚ) * cfg.GasMultiplier.toRat * (1 + 1 / 2 ^ 64)⌋ ∧
    (BitLen (g.natAbs * cfg.GasMultiplier.mant) ≤ max (BitLen g.natAbs) 64 →
      multiplyGasPrice g cfg.GasMultiplier = ⌊(g : ℚ) * cfg.GasMultiplier.toRat⌋) := by
  have hfloor := multiplyGasPrice_eq_floor_rounded g cfg.GasMultiplier hg hk
  have hclose := rounded_value_close (max (BitLen g.natAbs) 64)
    (g.natAbs * cfg.GasMultiplier.mant) cfg.GasMultiplier.exp (le_max_right _ _)
  rw [← price_times_multiplier g cfg.GasMultiplier hg hk] at hclose
  have hexact := multiplyGasPrice_exact g cfg.GasMultiplier hg hk
  generalize ((roundToNearestEven (max (BitLen g.natAbs) 64)
    (g.natAbs * cfg.GasMultiplier.mant) cfg.GasMultiplier.exp).1 : ℚ)
    * (2 : ℚ) ^ (roundToNearestEven (max (BitLen g.natAbs) 64)
      (g.natAbs * cfg.GasMultiplier.mant) cfg.GasMultiplier.exp).2 = r at hfloor hclose
  generalize (g : ℚ) * cfg.GasMultiplier.toRat = x at hclose hexact ⊢
  have habs : |r - x| ≤ x / 2 ^ 64 := by
    rw [le_div_iff₀ (by positivity)]
    exact hclose
  obtain ⟨hlo, hhi⟩ := abs_le.mp habs
  refine ⟨?_, min_le_left _ _, ⟨r, hfloor, hclose⟩, ?_, ?_, ?_⟩
  · unfold SafeEstimateGas
    simp only
    by_cases h : multiplyGasPrice g cfg.GasMultiplier > cfg.MaxGasPrice
    · rw [if_pos h, min_eq_left (le_of_lt h)]
    · rw [if_neg h, min_eq_right (not_lt.mp h)]
  · rw [hfloor]
    apply Int.floor_mono
    have : x * (1 - 1 / 2 ^ 64) = x - x / 2 ^ 64 := by ring
    rw [this]
    linarith
  · rw [hfloor]
    apply Int.floor_mono
    have : x * (1 + 1 / 2 ^ 64) = x + x / 2 ^ 64 := by ring
    rw [this]
    linarith
  · exact hexact

/-- The theorem of C8 (amended) at the price `2 ^ 33 - 1` with the multiplier
`1 + 2 ^ (-33)`, where the product is rounded up to `2 ^ 33`; and the prices
returned for the price 100 with the multiplier `3 / 2`: 120 under the maximum 120
and 150 under the maximum 250. -/
theorem safeEstimateGas_min_witness :
    (SafeEstimateGas roundingConfig (.ok 8589934591)
      = .ok (min roundingConfig.MaxGasPrice
          (multiplyGasPrice 8589934591 roundingConfig.GasMultiplier)) ∧
    min roundingConfig.MaxGasPrice (multiplyGasPrice 8589934591 roundingConfig.GasMultiplier)
      ≤ roundingConfig.MaxGasPrice ∧
    (∃ r : ℚ, multiplyGasPrice 8589934591 roundingConfig.GasMultiplier = ⌊r⌋ ∧
      |r - ((8589934591 : Int) : ℚ) * roundingConfig.GasMultiplier.toRat| * 2 ^ 64
        ≤ ((8589934591 : Int) : ℚ) * roundingConfig.GasMultiplier.toRat) ∧
    ⌊((8589934591 : Int) : ℚ) * roundingConfig.GasMultiplier.toRat * (1 - 1 / 2 ^ 64)⌋
      ≤ multiplyGasPrice 8589934591 roundingConfig.GasMultiplier ∧
    multiplyGasPrice 8589934591 roundingConfig.GasMultiplier
      ≤ ⌊((8589934591 : Int) : ℚ) * roundingConfig.GasMultiplier.toRat
          * (1 + 1 / 2 ^ 64)⌋ ∧
    (BitLen ((8589934591 : Int).natAbs * roundingConfig.GasMultiplier.mant)
        ≤ max (BitLen (8589934591 : Int).natAbs) 64 →
      multiplyGasPrice 8589934591 roundingConfig.GasMultiplier
        = ⌊((8589934591 : Int) : ℚ) * roundingConfig.GasMultiplier.toRat⌋)) ∧
    multiplyGasPrice 8589934591 roundingConfig.GasMultiplier = 8589934592 ∧
    multiplyGasPrice 100 (legacyConfig 120).GasMultiplier = 150 ∧
    SafeEstimateGas (legacyConfig 120) (.ok 100) = .ok 120 ∧
    SafeEstimateGas (legacyConfig 250) (.ok 100) = .ok 150 :=
  ⟨safeEstimateGas_min roundingConfig 8589934591 (by decide) rfl,
    by decide, by decide, by decide, by decide⟩

/-- Where the product needs rounding the result of `multiplyGasPrice` can exceed
the floor of the product: the price `2 ^ 33 - 1` times `1 + 2 ^ (-33)` is
`2 ^ 33 - 2 ^ (-33)`, which rounds to `2 ^ 33` at 64 bits. -/
theorem multiplyGasPrice_rounds :
    multiplyGasPrice 8589934591 { neg := false, mant := 8589934593, exp := -33 }
      = 8589934592 := by
  decide

/-! ## Nonce discipline -/

/-- Once the local nonce is set, `unsafeNonce` returns it and changes nothing. -/
theorem unsafeNonce_of_set (rpc : NonceOracle) (c : EVMClient) (n : Nat)
    (h : c.nonce = some n) : unsafeNonce rpc c = (c, some n, none) := by
  unfold unsafeNonce unsafeNonceLoop
  rw [h]

/-- With a nil local nonce, `j` failing queries followed by a query that answers
`n0` make the loop with more than `j` iterations left return `n0` and store it. -/
theorem unsafeNonceLoop_first_success (rpc : NonceOracle) (n0 : Nat) :
    ∀ (j iters : Nat) (c : EVMClient), c.nonce = none → j < iters →
      (∀ i, i < j → ∃ e, rpc (c.nonceQueries + i) = .error e) →
      rpc (c.nonceQueries + j) = .ok n0 →
      unsafeNonceLoop rpc iters c =
        ({ c with nonce := some n0, nonceQueries := c.nonceQueries + j + 1 }, some n0, none)
  | 0, iters, c, hnil, hlt, _, hok => by
    obtain ⟨k, rfl⟩ : ∃ k, iters = k + 1 := ⟨iters - 1, by omega⟩
    obtain ⟨cfg, nonce, opts, locked, q⟩ := c
    simp only at hnil hok
    subst hnil
    rw [Nat.add_zero] at hok
    simp only [unsafeNonceLoop, hok, Nat.add_zero]
  | j + 1, iters, c, hnil, hlt, hfail, hok => by
    obtain ⟨k, rfl⟩ : ∃ k, iters = k + 1 := ⟨iters - 1, by omega⟩
    obtain ⟨cfg, nonce, opts, locked, q⟩ := c
    simp only at hnil hok hfail
    subst hnil
    obtain ⟨e, he⟩ := hfail 0 (by omega)
    rw [Nat.add_zero] at he
    have ih := unsafeNonceLoop_first_success rpc n0 j k
      { config := cfg, nonce := none, opts := opts, optsLocked := locked, nonceQueries := q + 1 }
      rfl (by omega)
      (fun i hi => by
        obtain ⟨e', he'⟩ := hfail (i + 1) (by omega)
        refine ⟨e', ?_⟩
        have h1 : q + 1 + i = q + (i + 1) := by omega
        simp only [h1]
        exact he')
      (by
        have h1 : q + 1 + j = q + (j + 1) := by omega
        simp only [h1]
        exact hok)
    have h2 : q + 1 + j + 1 = q + (j + 1) + 1 := by omega
    simp only [h2] at ih
    simp only [unsafeNonceLoop, he, ih]

/-- Once the local nonce is `n`, `UnsafeIncreaseNonce` succeeds and makes it `n + 1`. -/
theorem UnsafeIncreaseNonce_of_set (rpc : NonceOracle) (c : EVMClient) (n : Nat)
    (h : c.nonce = some n) :
    UnsafeIncreaseNonce rpc c = .ret { c with nonce := some (n + 1) } none := by
  unfold UnsafeIncreaseNonce
  rw [unsafeNonce_of_set rpc c n h]

/-- Once the local nonce is `n`, `UnsafeOpts` assigns `n` to the options and
leaves the local nonce and the count of queries as they are. -/
theorem UnsafeOpts_of_set (rpc : NonceOracle) (head : Except String (Option Int))
    (tip price : Except String Int) (c : EVMClient) (n : Nat) (h : c.nonce = some n) :
    (UnsafeOpts rpc head tip price c).1.nonce = some n ∧
    (UnsafeOpts rpc head tip price c).1.nonceQueries = c.nonceQueries ∧
    (UnsafeOpts rpc head tip price c).1.opts.Nonce = some n ∧
    (∀ o, (UnsafeOpts rpc head tip price c).2 = .ok o → o.Nonce = some n) := by
  unfold UnsafeOpts
  rw [unsafeNonce_of_set rpc c n h]
  simp only
  split
  · simp [UnlockOpts, h]
  · split
    · simp [h]
    · rename_i heq
      simp only [h, true_and]
      intro o ho
      injection ho with ho
      rw [← ho]
  · split
    · simp [UnlockOpts, h]
    · simp only [h, true_and]
      intro o ho
      injection ho with ho
      rw [← ho]

/-- From a client whose local nonce is `n`, any sequence of calls runs without
abort, ends with the local nonce `n` plus the number of `UnsafeIncreaseNonce`
calls, and makes no query. -/
theorem runCalls_of_set (rpc : NonceOracle) :
    ∀ (calls : List ClientCall) (c : EVMClient) (n : Nat), c.nonce = some n →
      ∃ ck, runCalls rpc c calls = some ck ∧ ck.nonce = some (n + increases calls) ∧
        ck.nonceQueries = c.nonceQueries
  | [], c, n, h => ⟨c, rfl, by simpa [increases] using h, rfl⟩
  | .unsafeNonce :: calls, c, n, h => by
    obtain ⟨ck, h1, h2, h3⟩ := runCalls_of_set rpc calls c n h
    refine ⟨ck, ?_, by simpa [increases] using h2, h3⟩
    simp only [runCalls, ClientCall.run, unsafeNonce_of_set rpc c n h]
    exact h1
  | .UnsafeIncreaseNonce :: calls, c, n, h => by
    obtain ⟨ck, h1, h2, h3⟩ :=
      runCalls_of_set rpc calls { c with nonce := some (n + 1) } (n + 1) rfl
    refine ⟨ck, ?_, ?_, h3⟩
    · simp only [runCalls, ClientCall.run, UnsafeIncreaseNonce_of_set rpc c n h]
      exact h1
    · rw [h2]
      simp only [increases]
      congr 1
      omega
  | .UnsafeOpts head tip price :: calls, c, n, h => by
    obtain ⟨hn, hq, _, _⟩ := UnsafeOpts_of_set rpc head tip price c n h
    obtain ⟨ck, h1, h2, h3⟩ :=
      runCalls_of_set rpc calls (UnsafeOpts rpc head tip price c).1 n hn
    refine ⟨ck, ?_, by simpa [increases] using h2, by rw [h3, hq]⟩
    simp only [runCalls, ClientCall.run]
    exact h1

/-- C9: let the local nonce be nil and let the first successful `PendingNonceAt`
query, after `j ≤ 10` failed ones, answer `n0`. Then `unsafeNonce` returns `n0`
and stores it, and from there every sequence of calls of `unsafeNonce`,
`UnsafeOpts` and `UnsafeIncreaseNonce` runs to a client whose local nonce is `n0`
plus the number `k` of `UnsafeIncreaseNonce` calls in it, with no further
`PendingNonceAt` query; on that client `unsafeNonce` returns `n0 + k` and changes
nothing, `UnsafeOpts` assigns `n0 + k` to the options and keeps the local nonce,
and `UnsafeIncreaseNonce` succeeds and makes the local nonce `n0 + k + 1`. -/
theorem nonce_discipline (rpc : NonceOracle) (c : EVMClient) (n0 j : Nat)
    (hnil : c.nonce = none) (hj : j ≤ 10)
    (hfail : ∀ i, i < j → ∃ e, rpc (c.nonceQueries + i) = .error e)
    (hok : rpc (c.nonceQueries + j) = .ok n0) :
    ∃ c0, unsafeNonce rpc c = (c0, some n0, none) ∧ c0.nonce = some n0 ∧
      ∀ calls : List ClientCall, ∃ ck,
        runCalls rpc c0 calls = some ck ∧
        ck.nonce = some (n0 + increases calls) ∧
        ck.nonceQueries = c0.nonceQueries ∧
        unsafeNonce rpc ck = (ck, some (n0 + increases calls), none) ∧
        (∀ head tip price,
          (UnsafeOpts rpc head tip price ck).1.opts.Nonce = some (n0 + increases calls) ∧
          (UnsafeOpts rpc head tip price ck).1.nonce = ck.nonce ∧
          (UnsafeOpts rpc head tip price ck).1.nonceQueries = ck.nonceQueries) ∧
        UnsafeIncreaseNonce rpc ck
          = .ret { ck with nonce := some (n0 + increases calls + 1) } none := by
  refine ⟨{ c with nonce := some n0, nonceQueries := c.nonceQueries + j + 1 },
    unsafeNonceLoop_first_success rpc n0 j 11 c hnil (by omega) hfail hok, rfl, ?_⟩
  intro calls
  obtain ⟨ck, h1, h2, h3⟩ := runCalls_of_set rpc calls
    { c with nonce := some n0, nonceQueries := c.nonceQueries + j + 1 } n0 rfl
  refine ⟨ck, h1, h2, h3, unsafeNonce_of_set rpc ck _ h2, ?_,
    UnsafeIncreaseNonce_of_set rpc ck _ h2⟩
  intro head tip price
  obtain ⟨hn, hq, ho, _⟩ := UnsafeOpts_of_set rpc head tip price ck _ h2
  exact ⟨ho, by rw [hn, h2], hq⟩

/-- The theorem of C9 for a node that fails once and then answers 7. -/
theorem nonce_discipline_witness :
    ∃ c0, unsafeNonce flakyNode freshClient = (c0, some 7, none) ∧ c0.nonce = some 7 ∧
      ∀ calls : List ClientCall, ∃ ck,
        runCalls flakyNode c0 calls = some ck ∧
        ck.nonce = some (7 + increases calls) ∧
        ck.nonceQueries = c0.nonceQueries ∧
        unsafeNonce flakyNode ck = (ck, some (7 + increases calls), none) ∧
        (∀ head tip price,
          (UnsafeOpts flakyNode head tip price ck).1.opts.Nonce = some (7 + increases calls) ∧
          (UnsafeOpts flakyNode head tip price ck).1.nonce = ck.nonce ∧
          (UnsafeOpts flakyNode head tip price ck).1.nonceQueries = ck.nonceQueries) ∧
        UnsafeIncreaseNonce flakyNode ck
          = .ret { ck with nonce := some (7 + increases calls + 1) } none :=
  nonce_discipline flakyNode freshClient 7 1 rfl (by decide)
    (fun i hi => by
      have h0 : i = 0 := by omega
      subst h0
      exact ⟨"connection refused", rfl⟩)
    rfl

/-! ## Listener: the range of a batch -/

/-- Handling the logs of a batch only sends messages. -/
theorem handleLogs_only_emits (env : ListenerEnv) (domainID : Uint8) :
    ∀ (logs : List DepositLogs) (ev : ListenerEvent), ev ∈ handleLogs env domainID logs →
      ∃ m, ev = .emit m
  | [], ev, h => by simp [handleLogs] at h
  | eventLog :: logs, ev, h => by
    unfold handleLogs at h
    split at h
    · exact handleLogs_only_emits env domainID logs ev h
    · rcases List.mem_cons.mp h with h1 | h1
      · exact ⟨_, h1⟩
      · exact handleLogs_only_emits env domainID logs ev h1

/-- The end of the batch chosen by the loop is the smaller of `head - blockDelay`
and `startBlock + 99`. -/
theorem endBlock_eq_min (head blockDelay startBlock : Int) :
    (if head - blockDelay - startBlock > 99 then startBlock + 99 else head - blockDelay)
      = min (head - blockDelay) (startBlock + 99) := by
  by_cases h : head - blockDelay - startBlock > 99
  · rw [if_pos h, min_eq_right (by omega)]
  · rw [if_neg h, min_eq_left (by omega)]

/-- An iteration that sees the head `h` and has enough confirmations starts by
fetching the logs of `startBlock .. min (h - blockDelay) (startBlock + 99)`. -/
theorem iteration_fetches (blockDelay : Int) (domainID : Uint8) (env : ListenerEnv)
    (cursor : Option Int) (h : Int) (hhead : env.LatestBlock = .ok h)
    (hconf : ¬ h - cursor.getD h < blockDelay) :
    ∃ rest, (ListenToEventsIteration blockDelay domainID env cursor).2 =
      .fetch (cursor.getD h) (min (h - blockDelay) (cursor.getD h + 99)) :: rest := by
  unfold ListenToEventsIteration
  rw [hhead]
  simp only [hconf, if_false, endBlock_eq_min]
  split
  · exact ⟨_, rfl⟩
  · exact ⟨_, rfl⟩

/-- C10: when an iteration of the loop of `ListenToEvents` issues a log fetch for
the blocks `a .. b`, the head `h` was read, `a` is the cursor `startBlock` (the
head when the cursor was nil), `b = min (h - blockDelay) (a + 99)`, and so
`a ≤ b`, `b - a ≤ 99` and `h - b ≥ blockDelay`. -/
theorem listener_batch_range (blockDelay : Int) (domainID : Uint8) (env : ListenerEnv)
    (cursor : Option Int) (a b : Int)
    (hfetch : ListenerEvent.fetch a b ∈
      (ListenToEventsIteration blockDelay domainID env cursor).2) :
    ∃ h, env.LatestBlock = .ok h ∧ a = cursor.getD h ∧
      b = min (h - blockDelay) (a + 99) ∧ a ≤ b ∧ b - a ≤ 99 ∧ blockDelay ≤ h - b := by
  unfold ListenToEventsIteration at hfetch
  split at hfetch
  · simp at hfetch
  · next head hhead =>
    simp only [endBlock_eq_min] at hfetch
    split at hfetch
    · simp at hfetch
    · next hconf =>
      have key : a = cursor.getD head ∧ b = min (head - blockDelay) (cursor.getD head + 99) := by
        split at hfetch
        · simpa using hfetch
        · rcases List.mem_cons.mp hfetch with h1 | h1
          · simpa using h1
          · rcases List.mem_append.mp h1 with h2 | h2
            · obtain ⟨m, hm⟩ := handleLogs_only_emits _ _ _ _ h2
              cases hm
            · simp at h2
      obtain ⟨ha, hb⟩ := key
      subst ha
      refine ⟨head, hhead, rfl, hb, ?_, ?_, ?_⟩
      · rw [hb]
        exact le_min (by omega) (by omega)
      · have := min_le_right (head - blockDelay) (cursor.getD head + 99)
        omega
      · have := min_le_left (head - blockDelay) (cursor.getD head + 99)
        omega

/-- The theorem of C10 at the batch scenario of the specification: head 1000,
cursor 500 and delay 10 fetch the blocks 500 to 599, and the next cursor is 600. -/
theorem listener_batch_range_witness :
    (∃ h, (quietEnv 1000).LatestBlock = .ok h ∧ (500 : Int) = (some (500 : Int)).getD h ∧
      (599 : Int) = min (h - 10) (500 + 99) ∧ (500 : Int) ≤ 599 ∧ (599 : Int) - 500 ≤ 99 ∧
      10 ≤ h - 599) ∧
    ListenToEventsIteration 10 1 (quietEnv 1000) (some 500)
      = (some 600, [.fetch 500 599, .store 599 1]) :=
  ⟨listener_batch_range 10 1 (quietEnv 1000) (some 500) 500 599 (by decide), by decide⟩

/-! ## Listener: the four ways an iteration can go -/

theorem iteration_of_head_error (blockDelay : Int) (domainID : Uint8) (env : ListenerEnv)
    (cursor : Option Int) (err : String) (hhead : env.LatestBlock = .error err) :
    ListenToEventsIteration blockDelay domainID env cursor = (cursor, [.sleep]) := by
  unfold ListenToEventsIteration
  rw [hhead]

theorem iteration_of_unconfirmed (blockDelay : Int) (domainID : Uint8) (env : ListenerEnv)
    (cursor : Option Int) (h : Int) (hhead : env.LatestBlock = .ok h)
    (hconf : h - cursor.getD h < blockDelay) :
    ListenToEventsIteration blockDelay domainID env cursor
      = (some (cursor.getD h), [.sleep]) := by
  unfold ListenToEventsIteration
  rw [hhead]
  simp only [hconf, if_true]

theorem iteration_of_fetch_error (blockDelay : Int) (domainID : Uint8) (env : ListenerEnv)
    (cursor : Option Int) (h : Int) (err : String) (hhead : env.LatestBlock = .ok h)
    (hconf : ¬ h - cursor.getD h < blockDelay)
    (hfetch : env.FetchDepositLogs (cursor.getD h)
      (min (h - blockDelay) (cursor.getD h + 99)) = .error err) :
    ListenToEventsIteration blockDelay domainID env cursor
      = (some (cursor.getD h),
          [.fetch (cursor.getD h) (min (h - blockDelay) (cursor.getD h + 99))]) := by
  unfold ListenToEventsIteration
  rw [hhead]
  simp only [hconf, if_false, endBlock_eq_min, hfetch]

theorem iteration_of_fetch_ok (blockDelay : Int) (domainID : Uint8) (env : ListenerEnv)
    (cursor : Option Int) (h : Int) (logs : List DepositLogs) (hhead : env.LatestBlock = .ok h)
    (hconf : ¬ h - cursor.getD h < blockDelay)
    (hfetch : env.FetchDepositLogs (cursor.getD h)
      (min (h - blockDelay) (cursor.getD h + 99)) = .ok logs) :
    ListenToEventsIteration blockDelay domainID env cursor
      = (some (min (h - blockDelay) (cursor.getD h + 99) + 1),
          .fetch (cursor.getD h) (min (h - blockDelay) (cursor.getD h + 99))
            :: handleLogs env domainID logs
            ++ [.store (min (h - blockDelay) (cursor.getD h + 99)) domainID]) := by
  unfold ListenToEventsIteration
  rw [hhead]
  simp only [hconf, if_false, endBlock_eq_min, hfetch]

/-- With enough confirmations the batch is not empty. -/
theorem start_le_endBlock (h blockDelay s : Int) (hconf : ¬ h - s < blockDelay) :
    s ≤ min (h - blockDelay) (s + 99) :=
  le_min (by omega) (by omega)

/-- The messages sent while handling a batch are the resolved ones, in order. -/
theorem handleLogs_eq_resolved (env : ListenerEnv) (domainID : Uint8) :
    ∀ logs : List DepositLogs,
      handleLogs env domainID logs = (resolved env domainID logs).map ListenerEvent.emit
  | [] => rfl
  | eventLog :: logs => by
    have ih := handleLogs_eq_resolved env domainID logs
    unfold resolved at ih ⊢
    unfold handleLogs
    cases hev : env.HandleEvent domainID eventLog with
    | error e => simp [List.filterMap_cons, hev, ih]
    | ok m => simp [List.filterMap_cons, hev, ih]

/-! ## Listener: batches and checkpoints of a run -/

theorem batchesFrom_emits (pending : Option (Int × Int)) (trace : List ListenerEvent) :
    ∀ ms : List Message,
      batchesFrom pending (ms.map ListenerEvent.emit ++ trace) = batchesFrom pending trace
  | [] => rfl
  | m :: ms => by
    have ih := batchesFrom_emits pending trace ms
    cases pending <;> simpa [batchesFrom] using ih

theorem stored_emits (trace : List ListenerEvent) :
    ∀ ms : List Message, stored (ms.map ListenerEvent.emit ++ trace) = stored trace
  | [] => rfl
  | m :: ms => by
    have ih := stored_emits trace ms
    simpa [stored] using ih

theorem batchesFrom_fetch (pending : Option (Int × Int)) (a b : Int)
    (trace : List ListenerEvent) :
    batchesFrom pending (.fetch a b :: trace) = batchesFrom (some (a, b)) trace := by
  cases pending <;> rfl

theorem batchesFrom_store (r : Int × Int) (b : Int) (domainID : Uint8)
    (trace : List ListenerEvent) :
    batchesFrom (some r) (.store b domainID :: trace) = r :: batchesFrom none trace :=
  rfl

theorem stored_fetch (a b : Int) (trace : List ListenerEvent) :
    stored (.fetch a b :: trace) = stored trace :=
  rfl

theorem stored_store (b : Int) (domainID : Uint8) (trace : List ListenerEvent) :
    stored (.store b domainID :: trace) = b :: stored trace :=
  rfl

/-- In contiguous batches every end is at least the start and the ends strictly
increase. -/
theorem contiguous_ends_increase :
    ∀ (batchList : List (Int × Int)) (s : Int), ContiguousFrom s batchList →
      (∀ r ∈ batchList, s ≤ r.2) ∧ (batchList.map Prod.snd).Pairwise (· < ·)
  | [], _, _ => ⟨fun _ h => by simp at h, by simp⟩
  | (a, b) :: rest, s, h => by
    obtain ⟨ha, hab, hrest⟩ := h
    obtain ⟨ih1, ih2⟩ := contiguous_ends_increase rest (b + 1) hrest
    subst ha
    refine ⟨?_, ?_⟩
    · intro r hr
      rcases List.mem_cons.mp hr with h1 | h1
      · subst h1
        exact hab
      · have := ih1 r h1
        omega
    · simp only [List.map_cons, List.pairwise_cons]
      refine ⟨?_, ih2⟩
      intro x hx
      obtain ⟨r, hr, rfl⟩ := List.mem_map.mp hx
      have := ih1 r hr
      omega

/-- Along a run that starts at block `s`, the completed batches follow one
another from `s` on, and the blocks stored are their ends. -/
theorem run_batches (blockDelay : Int) (domainID : Uint8) :
    ∀ (envs : List ListenerEnv) (s : Int) (pending : Option (Int × Int)),
      ContiguousFrom s
        (batchesFrom pending (ListenToEvents blockDelay domainID envs (some s)).2) ∧
      stored (ListenToEvents blockDelay domainID envs (some s)).2 =
        (batchesFrom pending (ListenToEvents blockDelay domainID envs (some s)).2).map Prod.snd
  | [], s, pending => by
    simp [ListenToEvents, batchesFrom, stored, ContiguousFrom]
  | env :: envs, s, pending => by
    simp only [ListenToEvents]
    cases hhead : env.LatestBlock with
    | error err =>
      rw [iteration_of_head_error blockDelay domainID env (some s) err hhead]
      obtain ⟨ih1, ih2⟩ := run_batches blockDelay domainID envs s pending
      cases pending <;> simpa [batchesFrom, stored] using ⟨ih1, ih2⟩
    | ok h =>
      by_cases hconf : h - (some s).getD h < blockDelay
      · rw [iteration_of_unconfirmed blockDelay domainID env (some s) h hhead hconf]
        obtain ⟨ih1, ih2⟩ := run_batches blockDelay domainID envs s pending
        cases pending <;> simpa [batchesFrom, stored] using ⟨ih1, ih2⟩
      · cases hfetch : env.FetchDepositLogs ((some s).getD h)
            (min (h - blockDelay) ((some s).getD h + 99)) with
        | error err =>
          rw [iteration_of_fetch_error blockDelay domainID env (some s) h err hhead hconf hfetch]
          obtain ⟨ih1, ih2⟩ := run_batches blockDelay domainID envs s
            (some (s, min (h - blockDelay) (s + 99)))
          simpa [batchesFrom, stored] using ⟨ih1, ih2⟩
        | ok logs =>
          rw [iteration_of_fetch_ok blockDelay domainID env (some s) h logs hhead hconf hfetch]
          obtain ⟨ih1, ih2⟩ := run_batches blockDelay domainID envs
            (min (h - blockDelay) (s + 99) + 1) none
          have hle : s ≤ min (h - blockDelay) (s + 99) :=
            start_le_endBlock h blockDelay s (by simpa using hconf)
          simp only [Option.getD_some, List.cons_append, List.append_assoc,
            List.singleton_append, handleLogs_eq_resolved, batchesFrom_fetch, stored_fetch,
            batchesFrom_emits, stored_emits, batchesFrom_store, stored_store,
            ContiguousFrom, List.map_cons, List.nil_append]
          exact ⟨⟨trivial, hle, ih1⟩, by rw [ih2]⟩

/-- The confirmation scenario of the specification: with head 100, cursor 95 and
delay 10 the iteration only sleeps and the cursor stays at 95. -/
theorem confirmation_scenario :
    ListenToEventsIteration 10 1 (quietEnv 100) (some 95) = (some 95, [.sleep]) := by
  decide

/-- C11: in one iteration at the cursor `s`: when `LatestBlock` fails or when
`head - s < blockDelay` the iteration only sleeps (no fetch, no message, no
`StoreBlock`) and the cursor stays `s`; when `FetchDepositLogs` fails the only
event is the fetch and the cursor stays `s`; when it succeeds on `s .. endBlock`
the events are the fetch, the messages and `StoreBlock endBlock`, and the cursor
becomes `endBlock + 1 > s`; so the cursor moves exactly when the fetch succeeded.
Consequently, along any run from `s`, the completed batches follow one another
from `s` on without gap or overlap, the blocks stored are their ends, and the
blocks stored strictly increase. -/
theorem listener_cursor_rule (blockDelay : Int) (domainID : Uint8) (env : ListenerEnv)
    (s : Int) :
    (∀ err, env.LatestBlock = .error err →
      ListenToEventsIteration blockDelay domainID env (some s) = (some s, [.sleep])) ∧
    (∀ h, env.LatestBlock = .ok h → h - s < blockDelay →
      ListenToEventsIteration blockDelay domainID env (some s) = (some s, [.sleep])) ∧
    (∀ h err, env.LatestBlock = .ok h → ¬ h - s < blockDelay →
      env.FetchDepositLogs s (min (h - blockDelay) (s + 99)) = .error err →
      ListenToEventsIteration blockDelay domainID env (some s)
        = (some s, [.fetch s (min (h - blockDelay) (s + 99))])) ∧
    (∀ h logs, env.LatestBlock = .ok h → ¬ h - s < blockDelay →
      env.FetchDepositLogs s (min (h - blockDelay) (s + 99)) = .ok logs →
      ListenToEventsIteration blockDelay domainID env (some s)
        = (some (min (h - blockDelay) (s + 99) + 1),
            .fetch s (min (h - blockDelay) (s + 99)) :: handleLogs env domainID logs
              ++ [.store (min (h - blockDelay) (s + 99)) domainID]) ∧
      s < min (h - blockDelay) (s + 99) + 1) ∧
    ((ListenToEventsIteration blockDelay domainID env (some s)).1 ≠ some s ↔
      ∃ h logs, env.LatestBlock = .ok h ∧ ¬ h - s < blockDelay ∧
        env.FetchDepositLogs s (min (h - blockDelay) (s + 99)) = .ok logs) ∧
    (∀ envs : List ListenerEnv,
      ContiguousFrom s (batches (ListenToEvents blockDelay domainID envs (some s)).2) ∧
      stored (ListenToEvents blockDelay domainID envs (some s)).2
        = (batches (ListenToEvents blockDelay domainID envs (some s)).2).map Prod.snd ∧
      (stored (ListenToEvents blockDelay domainID envs (some s)).2).Pairwise (· < ·)) := by
  have hok : ∀ h logs, env.LatestBlock = .ok h → ¬ h - s < blockDelay →
      env.FetchDepositLogs s (min (h - blockDelay) (s + 99)) = .ok logs →
      ListenToEventsIteration blockDelay domainID env (some s)
        = (some (min (h - blockDelay) (s + 99) + 1),
            .fetch s (min (h - blockDelay) (s + 99)) :: handleLogs env domainID logs
              ++ [.store (min (h - blockDelay) (s + 99)) domainID]) ∧
      s < min (h - blockDelay) (s + 99) + 1 := by
    intro h logs hhead hconf hfetch
    have hle := start_le_endBlock h blockDelay s hconf
    exact ⟨iteration_of_fetch_ok blockDelay domainID env (some s) h logs hhead hconf hfetch,
      by omega⟩
  refine ⟨?_, ?_, ?_, hok, ?_, ?_⟩
  · intro err hhead
    exact iteration_of_head_error blockDelay domainID env (some s) err hhead
  · intro h hhead hconf
    exact iteration_of_unconfirmed blockDelay domainID env (some s) h hhead hconf
  · intro h err hhead hconf hfetch
    exact iteration_of_fetch_error blockDelay domainID env (some s) h err hhead hconf hfetch
  · constructor
    · intro hne
      cases hhead : env.LatestBlock with
      | error err =>
        rw [iteration_of_head_error blockDelay domainID env (some s) err hhead] at hne
        exact absurd rfl hne
      | ok h =>
        by_cases hconf : h - s < blockDelay
        · rw [iteration_of_unconfirmed blockDelay domainID env (some s) h hhead hconf] at hne
          exact absurd rfl hne
        · cases hfetch : env.FetchDepositLogs s (min (h - blockDelay) (s + 99)) with
          | error err =>
            rw [iteration_of_fetch_error blockDelay domainID env (some s) h err hhead hconf
              hfetch] at hne
            exact absurd rfl hne
          | ok logs => exact ⟨h, logs, rfl, hconf, hfetch⟩
    · rintro ⟨h, logs, hhead, hconf, hfetch⟩
      obtain ⟨heq, hlt⟩ := hok h logs hhead hconf hfetch
      rw [heq]
      intro hsame
      injection hsame with hsame
      omega
  · intro envs
    obtain ⟨h1, h2⟩ := run_batches blockDelay domainID envs s none
    exact ⟨h1, h2, by
      rw [h2]
      exact (contiguous_ends_increase _ s h1).2⟩

/-! ## Listener: checkpoints and emitted messages -/

theorem ListenToEvents_cons (blockDelay : Int) (domainID : Uint8) (env : ListenerEnv)
    (envs : List ListenerEnv) (cursor : Option Int) :
    ListenToEvents blockDelay domainID (env :: envs) cursor =
      ((ListenToEvents blockDelay domainID envs
          (ListenToEventsIteration blockDelay domainID env cursor).1).1,
        (ListenToEventsIteration blockDelay domainID env cursor).2 ++
          (ListenToEvents blockDelay domainID envs
            (ListenToEventsIteration blockDelay domainID env cursor).1).2) :=
  rfl

/-- A run over two successive lists of answers is the run over the first followed
by the run over the second from the cursor the first one leaves. -/
theorem ListenToEvents_append (blockDelay : Int) (domainID : Uint8) :
    ∀ (es1 es2 : List ListenerEnv) (cursor : Option Int),
      ListenToEvents blockDelay domainID (es1 ++ es2) cursor =
        ((ListenToEvents blockDelay domainID es2
            (ListenToEvents blockDelay domainID es1 cursor).1).1,
          (ListenToEvents blockDelay domainID es1 cursor).2 ++
            (ListenToEvents blockDelay domainID es2
              (ListenToEvents blockDelay domainID es1 cursor).1).2)
  | [], es2, cursor => by simp [ListenToEvents]
  | env :: es1, es2, cursor => by
    rw [List.cons_append, ListenToEvents_cons, ListenToEvents_cons,
      ListenToEvents_append blockDelay domainID es1 es2]
    simp only [List.append_assoc]

/-- The message of a log that the handler resolves is among those sent for the
batch. -/
theorem emit_mem_handleLogs (env : ListenerEnv) (domainID : Uint8) (eventLog : DepositLogs)
    (m : Message) (hm : env.HandleEvent domainID eventLog = .ok m) :
    ∀ logs : List DepositLogs, eventLog ∈ logs →
      ListenerEvent.emit m ∈ handleLogs env domainID logs
  | [], h => by simp at h
  | l :: logs, h => by
    unfold handleLogs
    rcases List.mem_cons.mp h with h1 | h1
    · subst h1
      rw [hm]
      exact List.mem_cons_self _ _
    · have ih := emit_mem_handleLogs env domainID eventLog m hm logs h1
      split
      · exact ih
      · exact List.mem_cons_of_mem _ ih

/-- In the events of a successful iteration followed by anything, whatever comes
before a `StoreBlock` call contains the fetch and all the messages of the batch. -/
theorem before_store_contains (env : ListenerEnv) (domainID : Uint8) (logs : List DepositLogs)
    (a e : Int) (rest pre post : List ListenerEvent) (b : Int) (d' : Uint8)
    (hsplit : (ListenerEvent.fetch a e :: handleLogs env domainID logs ++ [.store e domainID])
      ++ rest = pre ++ .store b d' :: post) :
    ∀ ev ∈ handleLogs env domainID logs, ev ∈ pre := by
  intro ev hev
  have hshape : (ListenerEvent.fetch a e :: handleLogs env domainID logs)
      ++ (.store e domainID :: rest) = pre ++ .store b d' :: post := by
    rw [← hsplit]
    simp
  rcases List.append_eq_append_iff.mp hshape with ⟨a', hpre, _⟩ | ⟨c', hfront, hstore⟩
  · rw [hpre]
    exact List.mem_append_left _ (List.mem_cons_of_mem _ hev)
  · cases c' with
    | nil =>
      rw [List.append_nil] at hfront
      rw [← hfront]
      exact List.mem_cons_of_mem _ hev
    | cons x xs =>
      have hx : x = .store b d' := by
        have := congrArg List.head? hstore
        simpa using this.symm
      have hmem : ListenerEvent.store b d' ∈
          ListenerEvent.fetch a e :: handleLogs env domainID logs := by
        rw [hfront, hx]
        exact List.mem_append_right _ (List.mem_cons_self _ _)
      rcases List.mem_cons.mp hmem with h1 | h1
      · cases h1
      · obtain ⟨m, hm⟩ := handleLogs_only_emits env domainID logs _ h1
        cases hm

/-- C12, as stated, fails: with head 1000, cursor 500 and delay 10 the fetch of
500 .. 599 returns the deposits 1 (block 550) and 2 (block 560), the handler
fails on deposit 1, and `StoreBlock 599` is called although no message for
deposit 1 was sent. -/
theorem checkpoint_skips_failed_log :
    partialEnv.FetchDepositLogs 500 599 = .ok [depositAt 1 550, depositAt 2 560] ∧
    (depositAt 1 550).DepositBlock ≤ 599 ∧
    ListenToEvents 10 1 [partialEnv] (some 500) =
      (some 600,
        [.fetch 500 599, .emit (messageOf 1 (depositAt 2 560)), .store 599 1]) ∧
    ∀ m ∈ emitted (ListenToEvents 10 1 [partialEnv] (some 500)).2, m.DepositNonce ≠ 1 := by
  decide

/-- C12, amended: split a run into the iterations before one that fetches
successfully, that iteration, and the later ones. For every log the fetch
returned on which `HandleEvent` returned a message, every `StoreBlock` call of
that iteration or of a later one comes after the message was sent. -/
theorem checkpoint_after_emission (blockDelay : Int) (domainID : Uint8)
    (es1 : List ListenerEnv) (env : ListenerEnv) (es2 : List ListenerEnv)
    (cursor : Option Int) (h : Int) (logs : List DepositLogs) (eventLog : DepositLogs)
    (m : Message) (hhead : env.LatestBlock = .ok h)
    (hconf : ¬ h - (ListenToEvents blockDelay domainID es1 cursor).1.getD h < blockDelay)
    (hfetch : env.FetchDepositLogs ((ListenToEvents blockDelay domainID es1 cursor).1.getD h)
      (min (h - blockDelay) ((ListenToEvents blockDelay domainID es1 cursor).1.getD h + 99))
        = .ok logs)
    (hlog : eventLog ∈ logs) (hm : env.HandleEvent domainID eventLog = .ok m) :
    ∃ later, (ListenToEvents blockDelay domainID (es1 ++ env :: es2) cursor).2 =
        (ListenToEvents blockDelay domainID es1 cursor).2 ++ later ∧
      ∀ (pre post : List ListenerEvent) (b : Int) (d' : Uint8),
        later = pre ++ .store b d' :: post → ListenerEvent.emit m ∈ pre := by
  refine ⟨_, by rw [ListenToEvents_append], ?_⟩
  intro pre post b d' hsplit
  rw [ListenToEvents_cons,
    iteration_of_fetch_ok blockDelay domainID env _ h logs hhead hconf hfetch] at hsplit
  exact before_store_contains env domainID logs _ _ _ pre post b d' hsplit _
    (emit_mem_handleLogs env domainID eventLog m hm logs hlog)

/-- The theorem of C12 (amended) on the scenario above, for deposit 2, followed by
a quiet iteration at head 2000. -/
theorem checkpoint_after_emission_witness :
    ∃ later, (ListenToEvents 10 1 ([] ++ partialEnv :: [quietEnv 2000]) (some 500)).2 =
        (ListenToEvents 10 1 [] (some 500)).2 ++ later ∧
      ∀ (pre post : List ListenerEvent) (b : Int) (d' : Uint8),
        later = pre ++ .store b d' :: post →
          ListenerEvent.emit (messageOf 1 (depositAt 2 560)) ∈ pre :=
  checkpoint_after_emission 10 1 [] partialEnv [quietEnv 2000] (some 500) 1000
    [depositAt 1 550, depositAt 2 560] (depositAt 2 560) (messageOf 1 (depositAt 2 560))
    rfl (by decide) rfl (by decide) (by decide)

/-! ## Listener: a log that cannot be handled -/

theorem emitted_emits (trace : List ListenerEvent) :
    ∀ ms : List Message, emitted (ms.map ListenerEvent.emit ++ trace) = ms ++ emitted trace
  | [] => rfl
  | m :: ms => by
    have ih := emitted_emits trace ms
    simpa [emitted] using ih

/-- C13: when `FetchDepositLogs` succeeds with `logs`, the iteration sends exactly
the messages `HandleEvent` returned for the logs on which it returned no error,
in the order of the logs, then calls `StoreBlock endBlock` once and moves the
cursor to `endBlock + 1`, whether or not `HandleEvent` failed on some log. -/
theorem listener_forward_progress (blockDelay : Int) (domainID : Uint8) (env : ListenerEnv)
    (cursor : Option Int) (h : Int) (logs : List DepositLogs)
    (hhead : env.LatestBlock = .ok h) (hconf : ¬ h - cursor.getD h < blockDelay)
    (hfetch : env.FetchDepositLogs (cursor.getD h)
      (min (h - blockDelay) (cursor.getD h + 99)) = .ok logs) :
    ListenToEventsIteration blockDelay domainID env cursor =
      (some (min (h - blockDelay) (cursor.getD h + 99) + 1),
        .fetch (cursor.getD h) (min (h - blockDelay) (cursor.getD h + 99))
          :: (resolved env domainID logs).map ListenerEvent.emit
          ++ [.store (min (h - blockDelay) (cursor.getD h + 99)) domainID]) ∧
    emitted (ListenToEventsIteration blockDelay domainID env cursor).2
      = resolved env domainID logs ∧
    stored (ListenToEventsIteration blockDelay domainID env cursor).2
      = [min (h - blockDelay) (cursor.getD h + 99)] := by
  rw [iteration_of_fetch_ok blockDelay domainID env cursor h logs hhead hconf hfetch,
    handleLogs_eq_resolved]
  refine ⟨rfl, ?_, ?_⟩
  · show emitted (_ :: (_ ++ _)) = _
    rw [show ∀ a b t, emitted (ListenerEvent.fetch a b :: t) = emitted t from fun _ _ _ => rfl,
      emitted_emits]
    simp [emitted]
  · show stored (_ :: (_ ++ _)) = _
    rw [stored_fetch, stored_emits]
    rfl

/-- The theorem of C13 on the scenario in which the handler fails on the first of
two deposits: the message of the second one is sent, block 599 is stored and the
cursor becomes 600. -/
theorem listener_forward_progress_witness :
    (ListenToEventsIteration 10 1 partialEnv (some 500) =
      (some (min (1000 - 10) ((some (500 : Int)).getD 1000 + 99) + 1),
        .fetch ((some (500 : Int)).getD 1000) (min (1000 - 10) ((some (500 : Int)).getD 1000 + 99))
          :: (resolved partialEnv 1 [depositAt 1 550, depositAt 2 560]).map ListenerEvent.emit
          ++ [.store (min (1000 - 10) ((some (500 : Int)).getD 1000 + 99)) 1]) ∧
    emitted (ListenToEventsIteration 10 1 partialEnv (some 500)).2
      = resolved partialEnv 1 [depositAt 1 550, depositAt 2 560] ∧
    stored (ListenToEventsIteration 10 1 partialEnv (some 500)).2
      = [min (1000 - 10) ((some (500 : Int)).getD 1000 + 99)]) ∧
    resolved partialEnv 1 [depositAt 1 550, depositAt 2 560] = [messageOf 1 (depositAt 2 560)] ∧
    (ListenToEventsIteration 10 1 partialEnv (some 500)).1 = some 600 :=
  ⟨listener_forward_progress 10 1 partialEnv (some 500) 1000
      [depositAt 1 550, depositAt 2 560] rfl (by decide) rfl,
    by decide, by decide⟩

/-! ## Configuration: block confirmations -/

/-- C14, as stated, fails: 0 is less than 1, yet a configuration with
`blockConfirmations = 0` that is otherwise valid passes `Validate`, and
`NewEVMConfig` returns a configuration, with the default confirmations. -/
theorem validate_accepts_zero_confirmations :
    (rawConfig 0).BlockConfirmations < 1 ∧
    (rawConfig 0).Validate testDeps = .ret (rawConfig 0) none ∧
    (∃ config, NewEVMConfig testDeps (.ok (rawConfig 0)) = .ret () (.ok config) ∧
      config.BlockConfirmations = testDeps.DefaultBlockConfirmations) := by
  refine ⟨by decide, by decide, _, rfl, rfl⟩

/-- C14, amended: for every raw configuration whose `blockConfirmations` is below
1 and which is otherwise valid: when the value is not 0 (so negative), `Validate`
returns an error and `NewEVMConfig` returns that error and no configuration; when
it is 0, the value of an unset field, `Validate` accepts the configuration and
`NewEVMConfig` returns one with the default confirmations. -/
theorem validate_rejects_negative_confirmations (deps : ConfigDeps) (c : RawEVMConfig)
    (hgeneral : deps.Validate c.GeneralChainConfig = none) (hbridge : c.Bridge ≠ "")
    (hconf : c.BlockConfirmations < 1) :
    (c.BlockConfirmations ≠ 0 →
      c.Validate deps = .ret c (some "blockConfirmations has to be >=1") ∧
      NewEVMConfig deps (.ok c) = .ret () (.error "blockConfirmations has to be >=1")) ∧
    (c.BlockConfirmations = 0 →
      c.Validate deps = .ret c none ∧
      ∃ config, NewEVMConfig deps (.ok c) = .ret () (.ok config) ∧
        config.BlockConfirmations = deps.DefaultBlockConfirmations) := by
  constructor
  · intro hset
    have hv : c.Validate deps = .ret c (some "blockConfirmations has to be >=1") := by
      unfold RawEVMConfig.Validate
      rw [hgeneral]
      simp only [hbridge, if_false]
      rw [if_pos ⟨hset, hconf⟩]
    refine ⟨hv, ?_⟩
    unfold NewEVMConfig
    simp only [hv]
  · intro hzero
    have hv : c.Validate deps = .ret c none := by
      unfold RawEVMConfig.Validate
      rw [hgeneral]
      simp only [hbridge, if_false]
      rw [if_neg (fun h => h.1 hzero)]
    refine ⟨hv, ?_⟩
    unfold NewEVMConfig
    simp only [hv]
    refine ⟨_, rfl, ?_⟩
    simp only [hzero, ne_eq, not_true_eq_false, if_false]
    split_ifs <;> rfl

/-- The theorem of C14 (amended) at `blockConfirmations = -1`. -/
theorem validate_rejects_negative_confirmations_witness :
    ((rawConfig (-1)).BlockConfirmations ≠ 0 →
      (rawConfig (-1)).Validate testDeps
        = .ret (rawConfig (-1)) (some "blockConfirmations has to be >=1") ∧
      NewEVMConfig testDeps (.ok (rawConfig (-1)))
        = .ret () (.error "blockConfirmations has to be >=1")) ∧
    ((rawConfig (-1)).BlockConfirmations = 0 →
      (rawConfig (-1)).Validate testDeps = .ret (rawConfig (-1)) none ∧
      ∃ config, NewEVMConfig testDeps (.ok (rawConfig (-1))) = .ret () (.ok config) ∧
        config.BlockConfirmations = testDeps.DefaultBlockConfirmations) :=
  validate_rejects_negative_confirmations testDeps (rawConfig (-1)) rfl (by decide)
    (by decide)

/-- The configuration with `blockConfirmations = -1` is rejected. -/
theorem negative_confirmations_scenario :
    (rawConfig (-1)).Validate testDeps
      = .ret (rawConfig (-1)) (some "blockConfirmations has to be >=1") := by
  decide

/-! ## Proposal identifiers -/

/-- C15, at a failing input: the proposals of chain 1 with the deposit nonces 1
and 257 differ in `(Source, DepositNonce)`, yet `GetID` hashes the same two bytes
for both, so their identifiers are equal whatever the hash function is. -/
theorem getID_collides :
    ((proposalWithNonce 1).Source, (proposalWithNonce 1).DepositNonce)
      ≠ ((proposalWithNonce 257).Source, (proposalWithNonce 257).DepositNonce) ∧
    (proposalWithNonce 1).idBytes = [1, 1] ∧
    (proposalWithNonce 257).idBytes = [1, 1] ∧
    ∀ Keccak256Hash : List Uint8 → List Uint8,
      (proposalWithNonce 1).GetID Keccak256Hash = (proposalWithNonce 257).GetID Keccak256Hash := by
  refine ⟨by decide, by decide, by decide, ?_⟩
  intro Keccak256Hash
  rfl

/-- What `GetID` hashes depends on the deposit nonce only through its low byte. -/
theorem idBytes_eq_iff (p q : Proposal) :
    p.idBytes = q.idBytes ↔
      p.Source = q.Source ∧ p.DepositNonce % 256 = q.DepositNonce % 256 := by
  unfold Proposal.idBytes
  constructor
  · intro h
    simp only [List.singleton_append, List.cons.injEq, and_true] at h
    exact ⟨h.1, by simpa using congrArg Fin.val h.2⟩
  · rintro ⟨h1, h2⟩
    simp only [List.singleton_append, List.cons.injEq, and_true]
    exact ⟨h1, Fin.ext h2⟩

/-! ## The latest block -/

/-- C16, at a failing input: when the call succeeds and leaves `head` nil,
`LatestBlock` aborts on `head.Number` instead of returning the not-found error;
when the call leaves a head with the number `n` and no error, it returns `n` and
no error. -/
theorem latestBlock_nil_head :
    LatestBlock none none = .abort "invalid memory address or nil pointer dereference" ∧
    ∀ n : Int, LatestBlock (some { Number := some n }) none = .ret () (some n, none) := by
  refine ⟨rfl, ?_⟩
  intro n
  simp [LatestBlock]

/-- Whenever `CallContext` leaves `head` nil, with or without an error,
`LatestBlock` aborts. -/
theorem latestBlock_aborts_without_head (err : GoError) :
    LatestBlock none err = .abort "invalid memory address or nil pointer dereference" := by
  unfold LatestBlock
  rfl

/-! ## Decimal adjustment: an empty payload -/

/-- C17, at a failing input: on a message with an empty `Payload` and decimals for
both chains, the domain-keyed and the resource-keyed processor both abort with an
index out of range at `m.Payload[0]` instead of returning. -/
theorem processors_abort_on_empty_payload :
    AdjustDecimalsForERC20AmountMessageProcessor [.decimalsMap testDecimals]
        (testMessage 1 2 .FungibleTransfer [])
      = .abort "index out of range [0] with length 0" ∧
    AdjustDecimalsForIndividualERC20AmountMessageProcessor
        [.decimalsTokenMap testTokenDecimals] (testMessage 1 2 .FungibleTransfer [])
      = .abort "index out of range [0] with length 0" := by
  decide

/-- With decimals for both chains in the map, the domain-keyed processor aborts on
every message whose payload is empty. -/
theorem adjustDecimals_aborts_of_empty (decimalsMap : Uint8 → Option Uint8) (args : List Arg)
    (m : Message) (s d : Uint8) (hs : decimalsMap m.Source = some s)
    (hd : decimalsMap m.Destination = some d) (hp : m.Payload = []) :
    AdjustDecimalsForERC20AmountMessageProcessor (.decimalsMap decimalsMap :: args) m
      = .abort "index out of range [0] with length 0" := by
  simp [AdjustDecimalsForERC20AmountMessageProcessor, hs, hd, hp]

/-! ## Nonce: a node that never answers -/

/-- With a nil local nonce and a node that fails every query, the loop with
`iters` iterations left makes `iters` queries and returns a nil nonce with a nil
error. -/
theorem unsafeNonceLoop_all_fail (rpc : NonceOracle)
    (hfail : ∀ i, ∃ e, rpc i = .error e) :
    ∀ (iters : Nat) (c : EVMClient), c.nonce = none →
      unsafeNonceLoop rpc iters c =
        ({ c with nonceQueries := c.nonceQueries + iters }, none, none)
  | 0, c, _ => rfl
  | iters + 1, c, hnil => by
    obtain ⟨cfg, nonce, opts, locked, q⟩ := c
    simp only at hnil
    subst hnil
    obtain ⟨e, he⟩ := hfail q
    have ih := unsafeNonceLoop_all_fail rpc hfail iters
      { config := cfg, nonce := none, opts := opts, optsLocked := locked, nonceQueries := q + 1 }
      rfl
    have h1 : q + 1 + iters = q + (iters + 1) := by omega
    simp only [h1] at ih
    simp only [unsafeNonceLoop, he, ih]

/-- C20, at a failing input: for a client whose local nonce is nil and a node that
fails all eleven `PendingNonceAt` attempts, `unsafeNonce` returns a nil nonce
together with a nil error; `UnsafeIncreaseNonce` then aborts on the nil nonce, and
`UnsafeOpts` goes on and returns options whose nonce is nil. -/
theorem unsafeNonce_nil_without_error :
    unsafeNonce deadNode freshClient = ({ freshClient with nonceQueries := 11 }, none, none) ∧
    UnsafeIncreaseNonce deadNode freshClient
      = .abort "invalid memory address or nil pointer dereference" ∧
    (UnsafeOpts deadNode (.ok none) (.ok 2) (.ok 100) freshClient).2
      = .ok { Nonce := none, GasPrice := some 100, GasTipCap := none, GasFeeCap := none } := by
  refine ⟨rfl, rfl, ?_⟩
  decide

/-! ## Decimal adjustment: when it fails -/

/-- With both decimals in the map and a byte slice at `Payload[0]` the
domain-keyed processor returns without error. -/
theorem adjustDecimals_succeeds (decimalsMap : Uint8 → Option Uint8) (args : List Arg)
    (m : Message) (s d : Uint8) (amountByte : List Uint8)
    (hs : decimalsMap m.Source = some s) (hd : decimalsMap m.Destination = some d)
    (hp : m.Payload[0]? = some (Value.bytes amountByte)) :
    ∃ m', AdjustDecimalsForERC20AmountMessageProcessor (.decimalsMap decimalsMap :: args) m
      = .ret m' none := by
  rw [adjustDecimals_run decimalsMap args m s d amountByte hs hd hp]
  by_cases h1 : d < s
  · rw [if_pos h1]
    exact ⟨_, rfl⟩
  · by_cases h2 : s < d
    · rw [if_neg h1, if_pos h2]
      exact ⟨_, rfl⟩
    · rw [if_neg h1, if_neg h2]
      exact ⟨_, rfl⟩

/-- C18: on a message with a non-empty payload the domain-keyed processor
returns, and it returns an error exactly when no argument was given, or the
first argument is not a decimals map, or the map has no entry for `m.Source`, or
it has no entry for `m.Destination`, or `Payload[0]` is not a byte slice; a
missing entry is an error, never a default. -/
theorem adjustDecimals_error_iff (args : List Arg) (m : Message) (hne : m.Payload ≠ []) :
    ∃ m' e, AdjustDecimalsForERC20AmountMessageProcessor args m = .ret m' e ∧
      (e ≠ none ↔
        (args = [] ∨
          (∃ a rest, args = a :: rest ∧ ∀ dm, a ≠ Arg.decimalsMap dm) ∨
          (∃ dm rest, args = Arg.decimalsMap dm :: rest ∧ dm m.Source = none) ∨
          (∃ dm rest, args = Arg.decimalsMap dm :: rest ∧ dm m.Destination = none) ∨
          (∀ b, m.Payload[0]? ≠ some (Value.bytes b)))) := by
  obtain ⟨p0, ps, hps⟩ : ∃ p0 ps, m.Payload = p0 :: ps := by
    cases hm : m.Payload with
    | nil => exact absurd hm hne
    | cons p0 ps => exact ⟨p0, ps, rfl⟩
  have hhead : m.Payload[0]? = some p0 := by
    rw [hps]
    simp
  have hother : ∀ (a : Arg) (rest : List Arg), (∀ dm, a ≠ Arg.decimalsMap dm) →
      AdjustDecimalsForERC20AmountMessageProcessor (a :: rest) m
        = .ret m (some "no decimals map found in args") := by
    intro a rest ha
    cases a with
    | decimalsMap dm => exact absurd rfl (ha dm)
    | decimalsTokenMap _ => rfl
    | clients _ => rfl
    | transactors _ => rfl
    | evmConfigs _ => rfl
    | other _ => rfl
  cases args with
  | nil =>
    exact ⟨m, some "processor requires 1 argument", rfl, fun _ => Or.inl rfl, fun _ => by simp⟩
  | cons a rest =>
    by_cases ha : ∀ dm, a ≠ Arg.decimalsMap dm
    · exact ⟨m, _, hother a rest ha, fun _ => Or.inr (Or.inl ⟨a, rest, rfl, ha⟩),
        fun _ => by simp⟩
    · obtain ⟨dm, hdm⟩ : ∃ dm, a = Arg.decimalsMap dm := by
        by_contra hcon
        exact ha (fun dm h => hcon ⟨dm, h⟩)
      subst hdm
      have hinj : ∀ (dm' : Uint8 → Option Uint8) (rest' : List Arg),
          Arg.decimalsMap dm :: rest = Arg.decimalsMap dm' :: rest' → dm' = dm := by
        intro dm' rest' h
        injection h with h1 _
        injection h1 with h2
        exact h2.symm
      cases hs : dm m.Source with
      | none =>
        refine ⟨m, some "no source decimals found at decimalsMap", ?_,
          fun _ => Or.inr (Or.inr (Or.inl ⟨dm, rest, rfl, hs⟩)), fun _ => by simp⟩
        simp [AdjustDecimalsForERC20AmountMessageProcessor, hs]
      | some s =>
        cases hd : dm m.Destination with
        | none =>
          refine ⟨m, some "no destination decimals found at decimalsMap", ?_,
            fun _ => Or.inr (Or.inr (Or.inr (Or.inl ⟨dm, rest, rfl, hd⟩))), fun _ => by simp⟩
          simp [AdjustDecimalsForERC20AmountMessageProcessor, hs, hd]
        | some d =>
          cases p0 with
          | other code =>
            refine ⟨m, some "could not cast interface to byte slice", ?_,
              fun _ => Or.inr (Or.inr (Or.inr (Or.inr ?_))), fun _ => by simp⟩
            · simp [AdjustDecimalsForERC20AmountMessageProcessor, hs, hd, hhead]
            · intro b hb
              rw [hhead] at hb
              injection hb with hb
              cases hb
          | bytes amountByte =>
            obtain ⟨m', hrun⟩ := adjustDecimals_succeeds dm rest m s d amountByte hs hd hhead
            refine ⟨m', none, hrun, fun h => absurd rfl h, ?_⟩
            rintro (h | ⟨a', rest', h, ha'⟩ | ⟨dm', rest', h, hs'⟩ |
              ⟨dm', rest', h, hd'⟩ | h)
            · cases h
            · injection h with h1 _
              exact absurd h1.symm (ha' dm)
            · rw [hinj dm' rest' h, hs] at hs'
              cases hs'
            · rw [hinj dm' rest' h, hd] at hd'
              cases hd'
            · exact absurd hhead (h amountByte)

/-- The theorem of C18 on the message of the test, once without arguments (an
error) and once with the decimals of the test (a success). -/
theorem adjustDecimals_error_iff_witness :
    (∃ m' e, AdjustDecimalsForERC20AmountMessageProcessor [] sentMessage = .ret m' e ∧
      (e ≠ none ↔
        (([] : List Arg) = [] ∨
          (∃ a rest, ([] : List Arg) = a :: rest ∧ ∀ dm, a ≠ Arg.decimalsMap dm) ∨
          (∃ dm rest, ([] : List Arg) = Arg.decimalsMap dm :: rest ∧
            dm sentMessage.Source = none) ∨
          (∃ dm rest, ([] : List Arg) = Arg.decimalsMap dm :: rest ∧
            dm sentMessage.Destination = none) ∨
          (∀ b, sentMessage.Payload[0]? ≠ some (Value.bytes b))))) ∧
    AdjustDecimalsForERC20AmountMessageProcessor [] sentMessage
      = .ret sentMessage (some "processor requires 1 argument") ∧
    AdjustDecimalsForERC20AmountMessageProcessor [.decimalsMap testDecimals] sentMessage
      = .ret adjustedMessage none :=
  ⟨adjustDecimals_error_iff [] sentMessage (by decide), by decide, by decide⟩

/-! ## The resource-keyed processor and the domain-keyed one -/

/-- The scenarios of `TestAdjustDecimalsForIndividualERC20AmountMessageProcessor`:
resource `{1}` with 18 decimals on chain 1 and 2 on chain 2 takes
145556700000000000000 to 14555 and 14555 back to 145550000000000000000. -/
theorem test_individual :
    AdjustDecimalsForIndividualERC20AmountMessageProcessor
        [.decimalsTokenMap testTokenDecimals] sentMessage = .ret adjustedMessage none ∧
    AdjustDecimalsForIndividualERC20AmountMessageProcessor
        [.decimalsTokenMap testTokenDecimals]
        (testMessage 2 1 .FungibleTransfer [.bytes (Bytes 14555)])
      = .ret (testMessage 2 1 .FungibleTransfer [.bytes (Bytes 145550000000000000000)])
          none := by
  decide

/-- With decimals for the resource on both chains and a byte slice at
`Payload[0]`, the resource-keyed processor succeeds and what it leaves is
determined by the two decimals, as for the domain-keyed one. -/
theorem adjustDecimalsIndividual_run (T : Uint8 → Option (ResourceID → Option Uint8))
    (args : List Arg) (m : Message) (s d : Uint8) (amountByte : List Uint8)
    (hs : tokenDecimals T m m.Source = some s) (hd : tokenDecimals T m m.Destination = some d)
    (hp : m.Payload[0]? = some (Value.bytes amountByte)) :
    AdjustDecimalsForIndividualERC20AmountMessageProcessor (.decimalsTokenMap T :: args) m =
      if d < s then
        .ret { m with
          Payload := m.Payload.set 0 (.bytes (Bytes (SetBytes amountByte / 10 ^ (s.val - d.val)))) }
          none
      else if s < d then
        .ret { m with
          Payload := m.Payload.set 0 (.bytes (Bytes (SetBytes amountByte * 10 ^ (d.val - s.val)))) }
          none
      else .ret m none := by
  unfold tokenDecimals at hs hd
  cases hTs : T m.Source with
  | none => simp [hTs] at hs
  | some sourceDecimals =>
    cases hTd : T m.Destination with
    | none => simp [hTd] at hd
    | some destDecimals =>
      simp only [hTs] at hs
      simp only [hTd] at hd
      simp only [AdjustDecimalsForIndividualERC20AmountMessageProcessor, hTs, hTd, hs, hd, hp]
      by_cases h1 : d < s
      · simp [h1, Uint8.val_sub_of_lt h1]
      · by_cases h2 : s < d
        · simp [h1, h2, Uint8.val_sub_of_lt h2]
        · simp [h1, h2]

/-- A success of the resource-keyed processor means that the table has decimals
for the resource on both chains and that `Payload[0]` is a byte slice. -/
theorem adjustDecimalsIndividual_success (T : Uint8 → Option (ResourceID → Option Uint8))
    (args : List Arg) (m m' : Message)
    (hrun : AdjustDecimalsForIndividualERC20AmountMessageProcessor
      (.decimalsTokenMap T :: args) m = .ret m' none) :
    ∃ s d b, tokenDecimals T m m.Source = some s ∧ tokenDecimals T m m.Destination = some d ∧
      m.Payload[0]? = some (Value.bytes b) := by
  unfold tokenDecimals
  unfold AdjustDecimalsForIndividualERC20AmountMessageProcessor at hrun
  cases hTs : T m.Source with
  | none => simp [hTs] at hrun
  | some sourceDecimals =>
    cases hs : sourceDecimals m.ResourceId with
    | none => simp [hTs, hs] at hrun
    | some s =>
      cases hTd : T m.Destination with
      | none => simp [hTs, hs, hTd] at hrun
      | some destDecimals =>
        cases hd : destDecimals m.ResourceId with
        | none => simp [hTs, hs, hTd, hd] at hrun
        | some d =>
          cases hp : m.Payload[0]? with
          | none => simp [hTs, hs, hTd, hd, hp] at hrun
          | some p0 =>
            cases p0 with
            | other code => simp [hTs, hs, hTd, hd, hp] at hrun
            | bytes b => exact ⟨s, d, b, by simp [hs], by simp [hd], rfl⟩

/-- The induced domain map has the decimals of the resource on the source and
on the destination chain. -/
theorem inducedDecimalsMap_source (T : Uint8 → Option (ResourceID → Option Uint8))
    (m : Message) :
    inducedDecimalsMap T m m.Source = tokenDecimals T m m.Source ∧
    inducedDecimalsMap T m m.Destination = tokenDecimals T m m.Destination := by
  simp [inducedDecimalsMap]

/-- C19: the resource-keyed processor with the table `T` succeeds on `m` exactly
when `T` has decimals for `(m.Source, m.ResourceId)` and for
`(m.Destination, m.ResourceId)` and `Payload[0]` is a byte slice, and then it
leaves `m` as the domain-keyed processor does with the domain map that sends
`m.Source` and `m.Destination` to those decimals. -/
theorem individual_refines_domain (T : Uint8 → Option (ResourceID → Option Uint8))
    (args args' : List Arg) (m : Message) :
    ((∃ m', AdjustDecimalsForIndividualERC20AmountMessageProcessor
        (.decimalsTokenMap T :: args) m = .ret m' none) ↔
      (∃ s d b, tokenDecimals T m m.Source = some s ∧
        tokenDecimals T m m.Destination = some d ∧
        m.Payload[0]? = some (Value.bytes b))) ∧
    (∀ m', AdjustDecimalsForIndividualERC20AmountMessageProcessor
        (.decimalsTokenMap T :: args) m = .ret m' none →
      AdjustDecimalsForERC20AmountMessageProcessor
        (.decimalsMap (inducedDecimalsMap T m) :: args') m = .ret m' none) := by
  have hsame : ∀ s d b, tokenDecimals T m m.Source = some s →
      tokenDecimals T m m.Destination = some d → m.Payload[0]? = some (Value.bytes b) →
      AdjustDecimalsForERC20AmountMessageProcessor
          (.decimalsMap (inducedDecimalsMap T m) :: args') m =
        AdjustDecimalsForIndividualERC20AmountMessageProcessor
          (.decimalsTokenMap T :: args) m := by
    intro s d b hs hd hp
    obtain ⟨h1, h2⟩ := inducedDecimalsMap_source T m
    rw [adjustDecimalsIndividual_run T args m s d b hs hd hp,
      adjustDecimals_run (inducedDecimalsMap T m) args' m s d b (by rw [h1, hs])
        (by rw [h2, hd]) hp]
  refine ⟨⟨?_, ?_⟩, ?_⟩
  · rintro ⟨m', hrun⟩
    exact adjustDecimalsIndividual_success T args m m' hrun
  · rintro ⟨s, d, b, hs, hd, hp⟩
    obtain ⟨h1, h2⟩ := inducedDecimalsMap_source T m
    obtain ⟨m', hm'⟩ := adjustDecimals_succeeds (inducedDecimalsMap T m) args' m s d b
      (by rw [h1, hs]) (by rw [h2, hd]) hp
    exact ⟨m', by rw [← hsame s d b hs hd hp, hm']⟩
  · intro m' hrun
    obtain ⟨s, d, b, hs, hd, hp⟩ := adjustDecimalsIndividual_success T args m m' hrun
    rw [hsame s d b hs hd hp, hrun]

/-! ## Decimal adjustment: what a round trip loses -/

/-- Flooring to a multiple of `p` takes away the remainder modulo `p`. -/
theorem div_mul_eq_sub_mod (a p : Nat) : a / p * p = a - a % p := by
  have h := Nat.div_add_mod a p
  rw [Nat.mul_comm] at h
  omega

/-- Taking away the remainder modulo `p` changes nothing exactly when `p` divides. -/
theorem sub_mod_eq_self_iff (a p : Nat) : a - a % p = a ↔ p ∣ a := by
  have hle : a % p ≤ a := Nat.mod_le a p
  rw [Nat.dvd_iff_mod_eq_zero]
  constructor
  · intro h
    by_cases h0 : a = 0
    · subst h0
      simp
    · omega
  · intro h
    omega

/-- C21: with decimals `s` for the source and `d` for the destination of a message
that carries the amount `a`: when `s > d`, with `k = s - d`, the round trip
through the processor yields `a - a mod 10 ^ k`, which is `a` if and only if
`10 ^ k` divides `a`; when `s < d` it yields exactly `a`. -/
theorem roundTrip_loss (decimalsMap : Uint8 → Option Uint8) (m : Message)
    (s d : Uint8) (amountByte : List Uint8)
    (hs : decimalsMap m.Source = some s) (hd : decimalsMap m.Destination = some d)
    (hp : m.Payload[0]? = some (Value.bytes amountByte)) :
    (d < s →
      roundTrip decimalsMap m
        = some (SetBytes amountByte - SetBytes amountByte % 10 ^ (s.val - d.val)) ∧
      (SetBytes amountByte - SetBytes amountByte % 10 ^ (s.val - d.val) = SetBytes amountByte ↔
        10 ^ (s.val - d.val) ∣ SetBytes amountByte)) ∧
    (s < d → roundTrip decimalsMap m = some (SetBytes amountByte)) := by
  have hrt := roundTrip_eq decimalsMap m s d amountByte hs hd hp
  constructor
  · intro h1
    rw [if_pos h1, div_mul_eq_sub_mod] at hrt
    exact ⟨hrt, sub_mod_eq_self_iff _ _⟩
  · intro h2
    have h1 : ¬ d < s := fun h => absurd h2 (not_lt_of_gt h)
    rw [if_neg h1] at hrt
    exact hrt

/-- The theorem of C21 on the message of the test, from 18 to 2 decimals and
back: 145556700000000000000 returns as 145550000000000000000, having lost its
remainder 6700000000000000 modulo `10 ^ 16`; and 14555 sent from 2 to 18 decimals
and back returns as 14555. -/
theorem roundTrip_loss_witness :
    (((2 : Uint8) < 18 →
      roundTrip testDecimals sentMessage
        = some (SetBytes (Bytes 145556700000000000000)
            - SetBytes (Bytes 145556700000000000000)
              % 10 ^ ((18 : Uint8).val - (2 : Uint8).val)) ∧
      (SetBytes (Bytes 145556700000000000000)
          - SetBytes (Bytes 145556700000000000000) % 10 ^ ((18 : Uint8).val - (2 : Uint8).val)
          = SetBytes (Bytes 145556700000000000000) ↔
        10 ^ ((18 : Uint8).val - (2 : Uint8).val) ∣ SetBytes (Bytes 145556700000000000000))) ∧
    ((18 : Uint8) < 2 →
      roundTrip testDecimals sentMessage = some (SetBytes (Bytes 145556700000000000000)))) ∧
    roundTrip testDecimals sentMessage = some 145550000000000000000 ∧
    145556700000000000000 % 10 ^ 16 = 6700000000000000 ∧
    roundTrip testDecimals (testMessage 2 1 .FungibleTransfer [.bytes (Bytes 14555)])
      = some 14555 :=
  ⟨roundTrip_loss testDecimals sentMessage 18 2 (Bytes 145556700000000000000)
      (by decide) (by decide) (by decide),
    by decide, by decide, by decide⟩

end Sygma
